import Mathlib

/-!
Verification development for the "Recursive Graph Art" (rga) repository.

The JavaScript sources are shallowly embedded:

* `graph.js` (Node, Graph, fromJSON, validate, detectCycles, canReachRoot)
  becomes a set of computable functions over `GraphM`, a list-backed model of
  the JS `Map` (insertion order preserved, `set` replaces in place).
  JS `throw` becomes `Except VErr`.  JS numbers holding integers (node ids,
  radial counts) become `ℤ`; other numeric parameters become `ℚ`
  (JS doubles are exact on every value appearing in these claims).
* `main.js` (the WebGL UI): the delete-node click handler.
* the export handler of the canvas UI (`src/unnamed/part_001`).
* `renderer.js`: the id-matrix part of the layered renderer
  (`reassignIds`, `transformIdMatrixDirect`, `applyTransformations`,
  `getRootLayers`, `getNonRootLayers`, `getNodeLayers`), over `ℚ`/`ℕ`.
  Cosine/sine of a degree value are supplied through an abstract
  interpretation function `angOf` (cosine and sine are transcendental; no
  claim below depends on their values, only on the data flow of ids).
  Canvas *contents* never influence the id matrices, so raster content is
  abstracted: the root disc's coverage is a parameter `rootCov`, and
  `drawImage` of one radial copy is a parameter `raster` (browser-side
  rasterisation is not code of this repository).
* `shaders.js` (the GLSL point-wise evaluator): embedded over `ℝ`
  (GLSL floats idealised as reals), including `inverseTransformForCopy`,
  `evaluateRootCircle`, `composite`, `tryEvaluateNode`,
  `evaluateNodeLimited` and `evaluateNode`.  GLSL `for` loops with `break`
  / early `return` become structural recursion on the loop bound.

Coordinate frames: the canvas renderer works in pixel coordinates
(y growing downward on screen).  The fragment shader's `pixelToMath` maps
the bottom of the screen to `maxY`, so the shader's mathematical frame also
has y growing downward on screen; the two frames differ only by a uniform
positive scale and a translation, both of which commute with every rotation
and uniform scale in the pipeline.  Transform round-trip statements below
therefore compare the two maps on this common screen-oriented plane.
-/

namespace RGA

/-- Validation / runtime errors of the engine.  Each constructor corresponds
to one `throw new Error(...)` site in `graph.js` / `main.js`, named after the
spec's error taxonomy (§7). -/
inductive VErr where
  | schemaNodes
  | schemaId
  | rootCountZero
  | rootCountMany (n : ℕ)
  | danglingBase (nid pid : ℤ)
  | danglingTransform (nid pid : ℤ)
  | selfBase (nid : ℤ)
  | selfTransform (nid : ℤ)
  | cycleDetected (path : List ℤ)
  | disconnected (nid : ℤ)
  | negScale (nid : ℤ)
  | negRadius (nid : ℤ)
  | cannotDeleteRoot
  | crash
deriving DecidableEq, Repr

/-- Whether an error is a self-reference violation (spec: `SelfReferenceError`). -/
def VErr.isSelfRef : VErr → Bool
  | .selfBase _ => true
  | .selfTransform _ => true
  | _ => false

/-- Whether an error is a dangling parent reference (spec:
`DanglingReferenceError`). -/
def VErr.isDangling : VErr → Bool
  | .danglingBase _ _ => true
  | .danglingTransform _ _ => true
  | _ => false

/-- `graph.js` `Node`: id, two optional parent references and the geometric
parameters, plus the optional free-text comment. -/
structure GNode where
  id : ℤ
  baseParent : Option ℤ
  transformParent : Option ℤ
  scale : ℚ
  radialRadius : ℚ
  radialCount : ℤ
  rotation : ℚ
  comment : Option String
deriving DecidableEq, Repr

/-- `Node.isRoot`: a node is the root iff both parent fields are null. -/
def GNode.isRoot (n : GNode) : Bool :=
  n.baseParent = none && n.transformParent = none

/-- `graph.js` `Graph`: the JS `Map` from id to node, modelled as an
association list in insertion order.  (The `rootNode` cache field is not
modelled: no embedded operation reads it.) -/
structure GraphM where
  nodes : List (ℤ × GNode)
deriving DecidableEq, Repr

/-- JS `Map.prototype.set`: replace in place if the key exists, else append. -/
def mapSet (m : List (ℤ × GNode)) (k : ℤ) (v : GNode) : List (ℤ × GNode) :=
  if m.any (fun p => p.1 = k) then
    m.map (fun p => if p.1 = k then (k, v) else p)
  else
    m ++ [(k, v)]

/-- `Graph.addNode`: `this.nodes.set(node.id, node)` — no validation at all. -/
def GraphM.addNode (g : GraphM) (n : GNode) : GraphM :=
  ⟨mapSet g.nodes n.id n⟩

/-- `Graph.getNode` (JS `Map.get`, `undefined` becomes `none`). -/
def GraphM.getNode (g : GraphM) (k : ℤ) : Option GNode :=
  (g.nodes.find? (fun p => p.1 = k)).map (fun p => p.2)

/-- JS `Map.has`. -/
def GraphM.hasNode (g : GraphM) (k : ℤ) : Bool :=
  g.nodes.any (fun p => p.1 = k)

/-- `Graph.getAllNodes` (JS `Map.values`, insertion order). -/
def GraphM.getAllNodes (g : GraphM) : List GNode :=
  g.nodes.map (fun p => p.2)

/-- The reference-integrity and self-reference loop of `Graph.validate`
(graph.js lines 121-136): for each node, in order — dangling base parent,
dangling transform parent, self base parent, self transform parent. -/
def checkRefs (g : GraphM) : List GNode → Except VErr Unit
  | [] => pure ()
  | n :: rest => do
    match n.baseParent with
    | some bp => if ¬ g.hasNode bp then throw (.danglingBase n.id bp)
    | none => pure ()
    match n.transformParent with
    | some tp => if ¬ g.hasNode tp then throw (.danglingTransform n.id tp)
    | none => pure ()
    if n.baseParent = some n.id then throw (.selfBase n.id)
    if n.transformParent = some n.id then throw (.selfTransform n.id)
    checkRefs g rest

/-- The recursive DFS of `Graph.detectCycles`.  The JS `visited` set is
threaded through (it is shared and monotone); the JS `recursionStack` obeys a
stack discipline (every insertion is removed before the call returns), so
passing it by value is equivalent.  `fuel` bounds the recursion; the JS
function always terminates because `visited` grows on every non-throwing
recursive call, so fuel `|nodes| + 1` never runs out (`.crash` models a JS
`TypeError` on a node id absent from the map, impossible once `checkRefs`
has passed). -/
def dfsCycle (g : GraphM) :
    ℕ → ℤ → List ℤ → List ℤ → List ℤ → Except VErr (List ℤ)
  | 0, _, _, _, _ => throw .crash
  | fuel + 1, nid, path, visited, stack =>
    if nid ∈ stack then throw (.cycleDetected (path ++ [nid]))
    else if nid ∈ visited then pure visited
    else
      match g.getNode nid with
      | none => throw .crash
      | some node => do
        let visited := nid :: visited
        let stack := nid :: stack
        let path := path ++ [nid]
        let visited ←
          match node.baseParent with
          | some bp => dfsCycle g fuel bp path visited stack
          | none => pure visited
        let visited ←
          match node.transformParent with
          | some tp => dfsCycle g fuel tp path visited stack
          | none => pure visited
        pure visited

/-- The top-level loop of `Graph.detectCycles`: start a DFS at every node not
yet visited. -/
def detectCyclesTop (g : GraphM) : List GNode → List ℤ → Except VErr Unit
  | [], _ => pure ()
  | n :: rest, visited => do
    let visited ←
      if n.id ∈ visited then pure visited
      else dfsCycle g (g.nodes.length + 1) n.id [] visited []
    detectCyclesTop g rest visited

/-- `Graph.canReachRoot`: recursive reachability with a per-branch copy of
the visited set (`new Set(visited)`); `||` short-circuits as in JS. -/
def canReachRoot (g : GraphM) : ℕ → ℤ → List ℤ → Bool
  | 0, _, _ => false
  | fuel + 1, nid, visited =>
    if nid ∈ visited then false
    else
      match g.getNode nid with
      | none => false
      | some node =>
        if node.isRoot then true
        else
          let visited := nid :: visited
          let viaBase :=
            match node.baseParent with
            | some bp => canReachRoot g fuel bp visited
            | none => false
          if viaBase then true
          else
            match node.transformParent with
            | some tp => canReachRoot g fuel tp visited
            | none => false

/-- `Graph.validateConnectivity`: every non-root node must reach the root. -/
def validateConnectivity (g : GraphM) : List GNode → Except VErr Unit
  | [] => pure ()
  | n :: rest =>
    if n.isRoot then validateConnectivity g rest
    else if canReachRoot g (g.nodes.length + 1) n.id [] then
      validateConnectivity g rest
    else throw (.disconnected n.id)

/-- `Graph.validate`: root uniqueness, then reference/self checks, then cycle
detection, then connectivity — in exactly that order. -/
def validateG (g : GraphM) : Except VErr Unit := do
  let roots := g.getAllNodes.filter (fun n => n.isRoot)
  if roots.length = 0 then throw .rootCountZero
  else if roots.length > 1 then throw (.rootCountMany roots.length)
  else do
    checkRefs g g.getAllNodes
    detectCyclesTop g g.getAllNodes []
    validateConnectivity g g.getAllNodes

/-- One element of the JSON document's `nodes` array.  An absent key is
`none`; a JSON `null` parent behaves exactly like an absent key in
`Graph.fromJSON` (`!== undefined` is checked, and both produce `null`), so a
single `Option` is faithful. -/
structure NodeData where
  id : Option ℤ
  base_parent : Option ℤ
  transform_parent : Option ℤ
  scale : Option ℚ
  radial_radius : Option ℚ
  radial_count : Option ℤ
  rotation : Option ℚ
  comment : Option String
deriving DecidableEq, Repr

/-- The JSON document: an object whose `nodes` key may be missing. -/
structure JsonDoc where
  nodes : Option (List NodeData)
deriving DecidableEq, Repr

/-- The per-element body of the first pass of `Graph.fromJSON`
(graph.js lines 66-94): id check, defaulting (`scale` 0 or absent becomes
1.0 at load time), then the non-negativity checks (scale first). -/
def parseElem (e : NodeData) : Except VErr GNode := do
  match e.id with
  | none => throw .schemaId
  | some i =>
    let scale0 : ℚ := match e.scale with | some s => s | none => 0
    let scale : ℚ := if scale0 = 0 then 1 else scale0
    let radialRadius : ℚ := match e.radial_radius with | some r => r | none => 0
    let radialCount : ℤ := match e.radial_count with | some c => c | none => 0
    let rotation : ℚ := match e.rotation with | some r => r | none => 0
    if scale < 0 then throw (.negScale i)
    else if radialRadius < 0 then throw (.negRadius i)
    else
      pure ⟨i, e.base_parent, e.transform_parent, scale, radialRadius,
            radialCount, rotation, e.comment⟩

/-- The first-pass loop of `Graph.fromJSON`: parse every element, aborting on
the first error (the JS loop throws out of the whole function). -/
def parseAll : List NodeData → Except VErr (List GNode)
  | [] => pure []
  | e :: rest => do
    let n ← parseElem e
    let ns ← parseAll rest
    pure (n :: ns)

/-- `Graph.fromJSON`: schema check, first pass building the node map, then
`validate` on the complete graph. -/
def fromJSON (d : JsonDoc) : Except VErr GraphM := do
  match d.nodes with
  | none => throw .schemaNodes
  | some l => do
    let ns ← parseAll l
    let g := ns.foldl GraphM.addNode ⟨[]⟩
    validateG g
    pure g

/-- The `deleteNodeButton` click handler of `main.js` (lines 292-313): refuse
to delete the root; otherwise delete the node from the map, re-run
`validate`, and on failure merely display the error — the deleted node is
*not* restored.  Returns the graph the handler leaves behind together with
the displayed error, if any. -/
def deleteNodeHandler (g : GraphM) (selectedId : ℤ) : GraphM × Option VErr :=
  match g.getNode selectedId with
  | some node =>
    if node.isRoot then (g, some .cannotDeleteRoot)
    else
      let g' : GraphM := ⟨g.nodes.filter (fun p => p.1 ≠ selectedId)⟩
      match validateG g' with
      | .ok _ => (g', none)
      | .error e => (g', some e)
  | none =>
    let g' : GraphM := ⟨g.nodes.filter (fun p => p.1 ≠ selectedId)⟩
    match validateG g' with
    | .ok _ => (g', none)
    | .error e => (g', some e)

/-- The six per-node fields written by the JSON export handler for a
non-root node. -/
structure ExpFields where
  base_parent : Option ℤ
  transform_parent : Option ℤ
  scale : ℚ
  radial_radius : ℚ
  radial_count : ℤ
  rotation : ℚ
deriving DecidableEq, Repr

/-- One element of the exported `nodes` array.  `fields = none` models a root
element, whose export consists of the bare `{ id }` object; `comment` models
the optional `comment` key of the exported JSON object. -/
structure ExpNode where
  id : ℤ
  fields : Option ExpFields
  comment : Option String
deriving DecidableEq, Repr

/-- The per-node body of the `exportJsonButton` click handler
(src/unnamed/part_001 lines 505-516): a root exports as `{ id }`; a non-root
exports id plus the six transform fields.  The handler never writes the
node's `comment`. -/
def exportElem (n : GNode) : ExpNode :=
  if n.isRoot then ⟨n.id, none, none⟩
  else
    ⟨n.id,
     some ⟨n.baseParent, n.transformParent, n.scale, n.radialRadius,
           n.radialCount, n.rotation⟩,
     none⟩

/-- The `nodes` array produced by the export handler
(`currentGraph.getAllNodes().map(...)`). -/
def exportNodes (g : GraphM) : List ExpNode :=
  g.getAllNodes.map exportElem

/-! ## renderer.js — the layered compositional renderer (id-matrix part)

Ids are modelled as unbounded naturals: `nextPixelId` is a JS number and the
ids it produces are exact integers; the single place where the `Uint32Array`
width matters within these claims is the collision of a freshly allocated id
with the transparency sentinel `0xFFFFFFFF`, which already happens at the
exact value `4294967295` without any truncation. -/

/-- The transparency sentinel `0xFFFFFFFF`. -/
def sentinel : ℕ := 4294967295

/-- The loop body of `Renderer.reassignIds` (renderer.js lines 366-395),
processing the source matrix left to right while threading the
`idMapping` map (association list, fresh keys prepended — keys are only
added when absent, so lookups agree with the JS `Map`) and the
`nextPixelId` counter.  Returns (new matrix, final mapping, final counter). -/
def reassignGo (flip : Bool) :
    List ℕ → List (ℕ × ℕ) → ℕ → List ℕ × List (ℕ × ℕ) × ℕ
  | [], m, c => ([], m, c)
  | s :: rest, m, c =>
    if s = sentinel then
      let r := reassignGo flip rest m c
      (sentinel :: r.1, r.2)
    else
      match List.lookup s m with
      | some nid =>
        let r := reassignGo flip rest m c
        (nid :: r.1, r.2)
      | none =>
        let np := if flip then 1 - s % 2 else s % 2
        let r := reassignGo flip rest ((s, c + np) :: m) (c + 2)
        ((c + np) :: r.1, r.2)

/-- `Renderer.reassignIds`: new matrix and final `nextPixelId`. -/
def reassignIds (src : List ℕ) (flip : Bool) (c : ℕ) : List ℕ × ℕ :=
  let r := reassignGo flip src [] c
  (r.1, r.2.2)

/-- A degree angle represented by its cosine/sine pair. -/
structure Ang where
  co : ℚ
  si : ℚ
deriving DecidableEq, Repr

/-- Renderer environment: internal canvas size (already multiplied by the
supersample factor), the viewport, the interpretation `angOf` of a degree
value as its cosine/sine pair, and the rasterised coverage of the root disc
(`alpha > 0` per pixel, produced by the browser's `ctx.arc` fill). -/
structure REnv where
  size : ℕ
  vminX : ℚ
  vmaxX : ℚ
  vminY : ℚ
  vmaxY : ℚ
  angOf : ℚ → Ang
  rootCov : ℕ → Bool

/-- `Renderer.mathToPixelDistance`. -/
def mathToPixelDistance (env : REnv) (d : ℚ) : ℚ :=
  d / (env.vmaxX - env.vminX) * (env.size : ℚ)

/-- The per-destination-pixel body of `Renderer.transformIdMatrixDirect`
(renderer.js lines 480-519): inverse-map the destination pixel (undo the
placement translation, the rotation and the scale about the canvas centre),
round, bounds-check, and sample the source matrix; `none` when the pixel
receives nothing (out of bounds or transparent source).  `cos(−rot) = cos rot`
and `sin(−rot) = −sin rot` are applied to express the source's
`Math.cos(-rotationRad)` through `angOf`.  A zero scale is mapped to `none`:
in JS the division produces `NaN`/`±Infinity` and the bounds check fails. -/
def copySample (env : REnv) (src : List ℕ) (scale : ℚ)
    (rotationDegrees radiusPixels placementAngleDegrees : ℚ) (destIndex : ℕ) :
    Option ℕ :=
  if scale = 0 then none else
  let n := env.size
  let center : ℚ := (n : ℚ) / 2
  let rotA := env.angOf rotationDegrees
  let cosv := rotA.co
  let sinv := - rotA.si
  let placA := env.angOf placementAngleDegrees
  let placementX := radiusPixels * placA.co
  let placementY := radiusPixels * placA.si
  let destX : ℚ := ((destIndex % n : ℕ) : ℚ)
  let destY : ℚ := ((destIndex / n : ℕ) : ℚ)
  let x := destX - center - placementX
  let y := destY - center - placementY
  let rotX := x * cosv - y * sinv
  let rotY := x * sinv + y * cosv
  let srcX := rotX / scale
  let srcY := rotY / scale
  let finalX := srcX + center
  let finalY := srcY + center
  if 0 ≤ finalX ∧ finalX < (n : ℚ) ∧ 0 ≤ finalY ∧ finalY < (n : ℚ) then
    let srcIndex : ℤ := round finalY * (n : ℤ) + round finalX
    if 0 ≤ srcIndex ∧ srcIndex < (src.length : ℤ) then
      let v := src.getD srcIndex.toNat sentinel
      if v = sentinel then none else some v
    else none
  else none

/-- `Renderer.transformIdMatrixDirect`: for every destination pixel, keep an
id already present (written by an earlier radial copy), else sample the
source matrix through the inverse transform. -/
def transformIdMatrixDirect (env : REnv) (src res : List ℕ) (scale : ℚ)
    (rotationDegrees radiusPixels placementAngleDegrees : ℚ) : List ℕ :=
  (List.range (env.size * env.size)).map fun destIndex =>
    let cur := res.getD destIndex sentinel
    if cur ≠ sentinel then cur
    else
      match copySample env src scale rotationDegrees radiusPixels
          placementAngleDegrees destIndex with
      | some v => v
      | none => sentinel

/-- The sample drawn from the source matrix by radial copy `i` at a
destination pixel, with the angles used by `Renderer.applyTransformations`
for that copy (`rotation + userAngle` and `placementAngle = userAngle − 90`). -/
def radialCopySample (env : REnv) (src : List ℕ)
    (scale radialRadius rotation : ℚ) (radialCount : ℤ) (i : ℕ)
    (destIndex : ℕ) : Option ℕ :=
  let userAngle : ℚ := (i : ℚ) * 360 / (radialCount : ℚ)
  copySample env src scale (rotation + userAngle)
    (mathToPixelDistance env radialRadius) (userAngle - 90) destIndex

/-- The id-matrix part of `Renderer.applyTransformations` (renderer.js lines
402-461): start from an all-sentinel matrix; with `radial_count = 0` apply a
single scale+rotation inverse sampling; otherwise run
`transformIdMatrixDirect` once per radial copy in ascending copy order. -/
def applyTransformationsId (env : REnv) (src : List ℕ)
    (scale radialRadius : ℚ) (radialCount : ℤ) (rotation : ℚ) : List ℕ :=
  let empty := List.replicate (env.size * env.size) sentinel
  if radialCount = 0 then
    transformIdMatrixDirect env src empty scale rotation 0 0
  else
    let radiusPixels := mathToPixelDistance env radialRadius
    (List.range radialCount.toNat).foldl
      (fun res (i : ℕ) =>
        let userAngle : ℚ := (i : ℚ) * 360 / (radialCount : ℚ)
        let placementAngle := userAngle - 90
        transformIdMatrixDirect env src res scale (rotation + userAngle)
          radiusPixels placementAngle)
      empty

/-- The canvas part of `Renderer.applyTransformations` for
`radial_count ≥ 1`: the copies are drawn by `ctx.drawImage` in ascending copy
order, each over the previous content.  The browser's rasterisation of one
transformed copy is abstracted by `raster i px` (`none` where the copy leaves
the pixel untouched); source-over drawing of an opaque pixel replaces what is
below. -/
def drawCopies (raster : ℕ → ℕ → Option ℕ) (count : ℕ) (px : ℕ) : Option ℕ :=
  (List.range count).foldl
    (fun acc i => match raster i px with | some v => some v | none => acc)
    none

/-- One cached rendering layer: its id matrix and its depth (the number of
transform-parent edges between the pixels' origin and the rendered node —
depth 0 at the root, kept by base composition, incremented by transform
composition). -/
structure Layer where
  idMatrix : List ℕ
  depth : ℕ
deriving DecidableEq, Repr

/-- Renderer state: the `nextPixelId` counter and the node-id-keyed layer
cache. -/
structure RState where
  counter : ℕ
  cache : List (ℤ × List Layer)
deriving DecidableEq

/-- Renderer construction: `this.nextPixelId = 0`, empty cache. -/
def initRState : RState := ⟨0, []⟩

/-- `Renderer.getRootLayers`: one depth-0 layer; every pixel covered by the
root disc receives the single fresh id `nextPixelId`, which is then advanced
by 2. -/
def getRootLayers (env : REnv) (st : RState) : List Layer × RState :=
  let rootId := st.counter
  let idMatrix := (List.range (env.size * env.size)).map
    fun i => if env.rootCov i then rootId else sentinel
  ([⟨idMatrix, 0⟩], { st with counter := st.counter + 2 })

/-- The base branch of `Renderer.getNonRootLayers`: reassign every base
layer's ids preserving parity; depths unchanged. -/
def reassignLayers (flip : Bool) : List Layer → ℕ → List Layer × ℕ
  | [], c => ([], c)
  | ℓ :: rest, c =>
    let r := reassignIds ℓ.idMatrix flip c
    let rs := reassignLayers flip rest r.2
    (⟨r.1, ℓ.depth⟩ :: rs.1, rs.2)

/-- The transform branch of `Renderer.getNonRootLayers`: transform every
layer's id matrix, reassign ids with flipped parity, increment depth. -/
def transformLayers (env : REnv) (node : GNode) :
    List Layer → ℕ → List Layer × ℕ
  | [], c => ([], c)
  | ℓ :: rest, c =>
    let tm := applyTransformationsId env ℓ.idMatrix node.scale
      node.radialRadius node.radialCount node.rotation
    let r := reassignIds tm true c
    let rs := transformLayers env node rest r.2
    (⟨r.1, ℓ.depth + 1⟩ :: rs.1, rs.2)

/-- `Renderer.getNodeLayers` / `getNonRootLayers`: cached recursive layer
computation.  `fuel` bounds the recursion (the JS version relies on the
validated graph being a DAG); `none` models a crash (missing node, missing
parent, or exhausted fuel). -/
def getNodeLayers (env : REnv) (g : GraphM) :
    ℕ → ℤ → RState → Option (List Layer × RState)
  | 0, _, _ => none
  | fuel + 1, nid, st =>
    match List.lookup nid st.cache with
    | some l => some (l, st)
    | none => do
      let node ← g.getNode nid
      let r ←
        if node.isRoot then
          some (getRootLayers env st)
        else do
          let bp ← node.baseParent
          let rb ← getNodeLayers env g fuel bp st
          let rbase := reassignLayers false rb.1 rb.2.counter
          let st2 : RState := { rb.2 with counter := rbase.2 }
          let tp ← node.transformParent
          let rt ← getNodeLayers env g fuel tp st2
          let rtr := transformLayers env node rt.1 rt.2.counter
          let st4 : RState := { rt.2 with counter := rtr.2 }
          some (rbase.1 ++ rtr.1, st4)
      some (r.1, { r.2 with cache := (nid, r.1) :: r.2.cache })

/-! ## shaders.js — the GLSL point-wise evaluator, over ℝ

GLSL `float`s are idealised as reals, so this part of the development is
`noncomputable`; concrete evaluations in theorems proceed by `simp` /
`norm_num`.  GLSL `for` loops with `break` and early `return` become
structural recursion on the loop bound; the per-pass node scan becomes a
fold over `0 … u_nodeCount − 1`. -/

noncomputable section

/-- GLSL `vec2`, and the `(color, alpha)` sample convention of the shader. -/
abbrev V2 := ℝ × ℝ

/-- GLSL `length`. -/
def glLength (v : V2) : ℝ := Real.sqrt (v.1 ^ 2 + v.2 ^ 2)

/-- GLSL `clamp`. -/
def glClamp (x lo hi : ℝ) : ℝ := min (max x lo) hi

/-- GLSL `smoothstep`. -/
def glSmoothstep (e0 e1 x : ℝ) : ℝ :=
  let t := glClamp ((x - e0) / (e1 - e0)) 0 1
  t * t * (3 - 2 * t)

/-- GLSL `radians`: degrees to radians. -/
def radiansOf (d : ℝ) : ℝ := d * Real.pi / 180

/-- The shader's `rotate(pos, angleDegrees)` helper. -/
def rotateDeg (p : V2) (angleDegrees : ℝ) : V2 :=
  let r := radiansOf angleDegrees
  (p.1 * Real.cos r - p.2 * Real.sin r, p.1 * Real.sin r + p.2 * Real.cos r)

/-- The graph uniforms (`u_nodeCount`, `u_nodeBaseParents`, …); `-1` encodes
a missing parent. -/
structure SGraph where
  nodeCount : ℕ
  baseParent : ℕ → ℤ
  transformParent : ℕ → ℤ
  scales : ℕ → ℝ
  radialRadii : ℕ → ℝ
  radialCounts : ℕ → ℤ
  rotations : ℕ → ℝ

/-- The viewport uniforms (`u_resolution`, `u_viewport`). -/
structure SView where
  resX : ℝ
  resY : ℝ
  minX : ℝ
  maxX : ℝ
  minY : ℝ
  maxY : ℝ

/-- The shader's `isRootNode`. -/
def isRootNode (sg : SGraph) (nid : ℕ) : Bool :=
  sg.baseParent nid = -1 && sg.transformParent nid = -1

/-- The `pixelSize` computed inside `evaluateRootCircle`. -/
def pixelSizeOf (u : SView) : ℝ :=
  glLength ((u.maxX - u.minX) / u.resX, (u.maxY - u.minY) / u.resY)

/-- The shader's `circleSDF`. -/
def circleSDF (pos : V2) (radius : ℝ) : ℝ := glLength pos - radius

/-- The shader's `evaluateRootCircle`: black disc of radius 1, antialiased
with `smoothstep` over one pixel. -/
def evaluateRootCircle (u : SView) (pos : V2) : V2 :=
  let pixelSize := pixelSizeOf u
  let dist := circleSDF pos 1
  let alpha := 1 - glSmoothstep (-pixelSize) pixelSize dist
  (0, alpha)

/-- The shader's `inverseTransformForCopy` (shaders.js lines 109-147),
verbatim: undo the node rotation globally, then undo this copy's placement
(whose placement angle *also* includes the node rotation) and per-copy
rotation, then undo the scale (guarded by `scale > 0.0001`). -/
def inverseTransformForCopy (sg : SGraph) (pos : V2) (nid : ℕ)
    (copyIndex : ℕ) : V2 :=
  let scale := sg.scales nid
  let radialRadius := sg.radialRadii nid
  let radialCount := sg.radialCounts nid
  let rotation := sg.rotations nid
  let result := rotateDeg pos (-rotation)
  let result :=
    if radialCount > 0 then
      let userAngle : ℝ := (copyIndex : ℝ) * 360 / (radialCount : ℝ)
      let placementAngle := userAngle + rotation - 90
      let copyOffset : V2 :=
        (radialRadius * Real.cos (radiansOf placementAngle),
         radialRadius * Real.sin (radiansOf placementAngle))
      let result := (result.1 - copyOffset.1, result.2 - copyOffset.2)
      let copyRotation := if radialCount > 1 then rotation + userAngle else rotation
      rotateDeg result (-copyRotation)
    else result
  if scale > 0.0001 then (result.1 / scale, result.2 / scale) else result

/-- The shader's `invertColor`. -/
def invertColor (ca : V2) : V2 := (1 - ca.1, ca.2)

/-- The shader's `composite`: alpha-over of `transform` on `base`. -/
def compositeS (base transform : V2) : V2 :=
  let alpha := transform.2 + base.2 * (1 - transform.2)
  if alpha < 0.001 then (0, 0)
  else ((transform.1 * transform.2 + base.1 * base.2 * (1 - transform.2)) / alpha,
        alpha)

/-- The innermost radial loop of the mini-evaluation inside
`evaluateNodeLimited` (`for j … if (j >= tp_radial) break …`): root-circle
candidates with the highest alpha winning; `none` models
`tp_allReady = false; break` when the grandparent is not the root. -/
def miniRadialGo (sg : SGraph) (u : SView) (tp : ℕ) (tpos : V2) (tpTp : ℕ)
    (tpRadial : ℤ) : ℕ → ℕ → V2 → Option V2
  | 0, _, best => some best
  | fuel + 1, j, best =>
    if (j : ℤ) ≥ tpRadial then some best
    else
      let tp_tpos := inverseTransformForCopy sg tpos tp j
      if isRootNode sg tpTp then
        let s := evaluateRootCircle u tp_tpos
        let best := if s.2 > best.2 then s else best
        miniRadialGo sg u tp tpos tpTp tpRadial fuel (j + 1) best
      else none

/-- The hand-rolled two-level evaluation of a non-root transform parent `tp`
at position `tpos` inside `evaluateNodeLimited` (shaders.js lines 234-283 and
298-351): evaluate `tp`'s base parent at `tpos` when it is the root or
already cached (at the original position — the source comments call this an
approximation), and `tp`'s transform parent only when it is the root; `none`
models every `continue` / `allReady = false` path. -/
def miniEval (sg : SGraph) (u : SView) (cache : ℕ → V2) (ready : ℕ → Bool)
    (tp : ℕ) (tpos : V2) : Option V2 :=
  let tp_bp := sg.baseParent tp
  let tp_tp := sg.transformParent tp
  do
    let tp_base ←
      if 0 ≤ tp_bp then
        if isRootNode sg tp_bp.toNat then some (evaluateRootCircle u tpos)
        else if ready tp_bp.toNat then some (cache tp_bp.toNat)
        else none
      else some ((0 : ℝ), (0 : ℝ))
    let tp_transform ←
      if 0 ≤ tp_tp then do
        let tv ←
          if sg.radialCounts tp = 0 then
            let tp_tpos := inverseTransformForCopy sg tpos tp 0
            if isRootNode sg tp_tp.toNat then some (evaluateRootCircle u tp_tpos)
            else none
          else
            miniRadialGo sg u tp tpos tp_tp.toNat (sg.radialCounts tp) 32 0 (0, 0)
        pure (invertColor tv)
      else some ((0 : ℝ), (0 : ℝ))
    pure (compositeS tp_base tp_transform)

/-- The radial-copy loop of the `radialCount > 0` branch at the top level of
`evaluateNodeLimited` (shaders.js lines 286-356): per copy, a root transform
parent is sampled directly, a ready non-root one goes through `miniEval`;
highest alpha wins; `none` models `allReady = false; break`. -/
def limitedRadialGo (sg : SGraph) (u : SView) (cache : ℕ → V2)
    (ready : ℕ → Bool) (nid tp : ℕ) (pos : V2) (maxDepth radialCount : ℤ) :
    ℕ → ℕ → V2 → Option V2
  | 0, _, best => some best
  | fuel + 1, i, best =>
    if (i : ℤ) ≥ radialCount then some best
    else
      let tpos := inverseTransformForCopy sg pos nid i
      if isRootNode sg tp then
        let s := evaluateRootCircle u tpos
        let best := if s.2 > best.2 then s else best
        limitedRadialGo sg u cache ready nid tp pos maxDepth radialCount fuel
          (i + 1) best
      else
        if ready tp ∧ maxDepth > 1 then
          match miniEval sg u cache ready tp tpos with
          | some s =>
            let best := if s.2 > best.2 then s else best
            limitedRadialGo sg u cache ready nid tp pos maxDepth radialCount
              fuel (i + 1) best
          | none => none
        else none

/-- The attempt to evaluate one node during one pass of
`evaluateNodeLimited`; `none` models every `continue` path of the `nid`
loop. -/
def limitedTryNode (sg : SGraph) (u : SView) (pos : V2) (maxDepth : ℤ)
    (cache : ℕ → V2) (ready : ℕ → Bool) (nid : ℕ) : Option V2 :=
  if isRootNode sg nid then some (evaluateRootCircle u pos)
  else
    let bp := sg.baseParent nid
    let tp := sg.transformParent nid
    do
      let baseValue ←
        if 0 ≤ bp then
          if isRootNode sg bp.toNat then some (evaluateRootCircle u pos)
          else if ready bp.toNat then some (cache bp.toNat)
          else none
        else some ((0 : ℝ), (0 : ℝ))
      let transformValue ←
        if 0 ≤ tp then do
          let tv ←
            if sg.radialCounts nid = 0 then
              let tpos := inverseTransformForCopy sg pos nid 0
              if isRootNode sg tp.toNat then
                some (evaluateRootCircle u tpos)
              else if ready tp.toNat ∧ maxDepth > 1 then
                miniEval sg u cache ready tp.toNat tpos
              else none
            else
              limitedRadialGo sg u cache ready nid tp.toNat pos maxDepth
                (sg.radialCounts nid) 32 0 (0, 0)
          pure (invertColor tv)
        else some ((0 : ℝ), (0 : ℝ))
      pure (compositeS baseValue transformValue)

/-- The per-position evaluation state of both pass loops: the `cache` and
`ready` arrays and the `madeProgress` flag of the current pass. -/
structure EvalState where
  cache : ℕ → V2
  ready : ℕ → Bool
  progress : Bool

/-- One pass over all nodes (`for (int nid = 0; nid < u_nodeCount; nid++)`),
shared shape of `evaluateNodeLimited` and `evaluateNode`: skip ready nodes,
record a successful attempt and set the progress flag. -/
def passScan (attempt : (ℕ → V2) → (ℕ → Bool) → ℕ → Option V2) (count : ℕ)
    (st : EvalState) : EvalState :=
  (List.range count).foldl
    (fun st nid =>
      if st.ready nid then st
      else
        match attempt st.cache st.ready nid with
        | some v =>
          ⟨fun k => if k = nid then v else st.cache k,
           fun k => if k = nid then true else st.ready k, true⟩
        | none => st)
    st

/-- The pass loop of `evaluateNodeLimited` (up to 8 passes, also bounded by
`maxDepth`); returns the cached value once the target is ready, and
`(-1, -1)` when the loop ends without it. -/
def limitedLoop (sg : SGraph) (u : SView) (pos : V2) (maxDepth : ℤ)
    (nodeId : ℕ) : ℕ → ℕ → EvalState → V2
  | 0, _, st => if st.ready nodeId then st.cache nodeId else (-1, -1)
  | fuel + 1, p, st =>
    if (p : ℤ) ≥ maxDepth then
      if st.ready nodeId then st.cache nodeId else (-1, -1)
    else
      let st' := passScan (limitedTryNode sg u pos maxDepth) sg.nodeCount
        { st with progress := false }
      if st'.progress = false then
        if st'.ready nodeId then st'.cache nodeId else (-1, -1)
      else if st'.ready nodeId then st'.cache nodeId
      else limitedLoop sg u pos maxDepth nodeId fuel (p + 1) st'

/-- The shader's `evaluateNodeLimited`. -/
def evaluateNodeLimited (sg : SGraph) (u : SView) (nodeId : ℕ) (pos : V2)
    (maxDepth : ℤ) : V2 :=
  limitedLoop sg u pos maxDepth nodeId 8 0 ⟨fun _ => (0, 0), fun _ => false, false⟩

/-- The radial-copy loop of the shader's `tryEvaluateNode`: each copy's
sample comes from the root circle or from `evaluateNodeLimited` with depth 8;
a failed sub-evaluation (`y < 0`) aborts the whole attempt (`none`); highest
alpha wins. -/
def outerRadialGo (sg : SGraph) (u : SView) (nid tp : ℕ) (pos : V2)
    (radialCount : ℤ) : ℕ → ℕ → V2 → Option V2
  | 0, _, best => some best
  | fuel + 1, i, best =>
    if (i : ℤ) ≥ radialCount then some best
    else
      let tpos := inverseTransformForCopy sg pos nid i
      if isRootNode sg tp then
        let s := evaluateRootCircle u tpos
        let best := if s.2 > best.2 then s else best
        outerRadialGo sg u nid tp pos radialCount fuel (i + 1) best
      else
        let s := evaluateNodeLimited sg u tp tpos 8
        if s.2 < 0 then none
        else
          let best := if s.2 > best.2 then s else best
          outerRadialGo sg u nid tp pos radialCount fuel (i + 1) best

/-- The shader's `tryEvaluateNode` (shaders.js lines 386-452); `none` models
the `return vec2(-1.0, -1.0)` paths (parents not ready / sub-evaluation
failed). -/
def tryEvaluateNode (sg : SGraph) (u : SView) (nid : ℕ) (pos : V2)
    (cache : ℕ → V2) (ready : ℕ → Bool) : Option V2 :=
  if isRootNode sg nid then some (evaluateRootCircle u pos)
  else
    let bp := sg.baseParent nid
    let tp := sg.transformParent nid
    do
      let baseValue ←
        if 0 ≤ bp then
          if isRootNode sg bp.toNat then some (evaluateRootCircle u pos)
          else if ready bp.toNat then some (cache bp.toNat)
          else none
        else some ((0 : ℝ), (0 : ℝ))
      let transformValue ←
        if 0 ≤ tp then do
          let tv ←
            if sg.radialCounts nid = 0 then
              let tpos := inverseTransformForCopy sg pos nid 0
              if isRootNode sg tp.toNat then
                some (evaluateRootCircle u tpos)
              else
                let s := evaluateNodeLimited sg u tp.toNat tpos 8
                if s.2 < 0 then none else some s
            else
              outerRadialGo sg u nid tp.toNat pos (sg.radialCounts nid) 32 0
                (0, 0)
          pure (invertColor tv)
        else some ((0 : ℝ), (0 : ℝ))
      pure (compositeS baseValue transformValue)

/-- The pass loop of the shader's `evaluateNode` (32 passes): `some` models
the `return cache[nodeId]` paths, `none` the fall-through to the transparent
fallback. -/
def outerLoop (sg : SGraph) (u : SView) (pos : V2) (nodeId : ℕ) :
    ℕ → EvalState → Option V2
  | 0, st => if st.ready nodeId then some (st.cache nodeId) else none
  | fuel + 1, st =>
    let st' := passScan (fun c r nid =>
        match tryEvaluateNode sg u nid pos c r with
        | some v => if 0 ≤ v.2 then some v else none
        | none => none) sg.nodeCount { st with progress := false }
    if st'.progress = false then
      if st'.ready nodeId then some (st'.cache nodeId) else none
    else if st'.ready nodeId then some (st'.cache nodeId)
    else outerLoop sg u pos nodeId fuel st'

/-- The shader's `evaluateNode` up to its final fallback: `some` when the
target node was evaluated within the pass budget, `none` when the budget was
exhausted. -/
def evaluateNodeCore (sg : SGraph) (u : SView) (nodeId : ℕ) (pos : V2) :
    Option V2 :=
  outerLoop sg u pos nodeId 32 ⟨fun _ => (0, 0), fun _ => false, false⟩

/-- The shader's `evaluateNode`: the computed sample, or the transparent
fallback `vec2(0.0, 0.0)` when evaluation was exhausted. -/
def evaluateNode (sg : SGraph) (u : SView) (nodeId : ℕ) (pos : V2) : V2 :=
  match evaluateNodeCore sg u nodeId pos with
  | some v => v
  | none => (0, 0)

/-- The forward map applied to one radial copy by the canvas side of
`Renderer.applyTransformations` (renderer.js lines 414-421 and 442-453),
read off the `ctx` operation sequence in centred canvas coordinates (the
`translate(center, center) … translate(-center, -center)` conjugation
cancels): a source point is scaled, self-rotated by the user angle when
`radialCount > 1`, rotated by the node rotation, and translated to the
copy's placement.  Distances are expressed in the same unit as the input
point (the uniform `mathToPixelDistance` factor commutes with every step).
Both this map and `inverseTransformForCopy` act on the common screen-oriented
plane described in the file header. -/
def forwardCopy (scale radialRadius rotation : ℝ) (radialCount : ℤ) (i : ℕ)
    (p : V2) : V2 :=
  if radialCount = 0 then
    let q := rotateDeg p rotation
    (scale * q.1, scale * q.2)
  else
    let userAngle : ℝ := (i : ℝ) * 360 / (radialCount : ℝ)
    let placementAngle := userAngle - 90
    let off : V2 := (radialRadius * Real.cos (radiansOf placementAngle),
                     radialRadius * Real.sin (radiansOf placementAngle))
    let q : V2 := (scale * p.1, scale * p.2)
    let q := if radialCount > 1 then rotateDeg q userAngle else q
    let q := rotateDeg q rotation
    (q.1 + off.1, q.2 + off.2)

/-- Squared-distance closeness within a tolerance, the `≈` of the spec's
invertibility property. -/
def within (tol : ℝ) (a b : V2) : Prop :=
  (a.1 - b.1) ^ 2 + (a.2 - b.2) ^ 2 ≤ tol ^ 2

end

/-! ## Spec-side round-trip normalizations (for the export/import claim) -/

/-- Modelled from the spec: the claim's reading of "`toDocument(fromDocument(d))`
equals `d` up to declared defaults", per document element — apply the declared
defaults (`scale` 0 or absent becomes 1.0, other optional fields get their
defaults, a root element reduces to the bare `{ id }` object) and round-trip
the `comment` field. -/
def specRoundTrip (e : NodeData) : ExpNode :=
  let id := e.id.getD 0
  if e.base_parent = none ∧ e.transform_parent = none then ⟨id, none, e.comment⟩
  else
    let scale0 := e.scale.getD 0
    ⟨id,
     some ⟨e.base_parent, e.transform_parent,
           if scale0 = 0 then 1 else scale0,
           e.radial_radius.getD 0, e.radial_count.getD 0, e.rotation.getD 0⟩,
     e.comment⟩

/-- The element-wise round trip the code actually performs: as
`specRoundTrip`, except that the `comment` field is dropped (the export
handler never writes it). -/
def codeRoundTrip (e : NodeData) : ExpNode :=
  let id := e.id.getD 0
  if e.base_parent = none ∧ e.transform_parent = none then ⟨id, none, none⟩
  else
    let scale0 := e.scale.getD 0
    ⟨id,
     some ⟨e.base_parent, e.transform_parent,
           if scale0 = 0 then 1 else scale0,
           e.radial_radius.getD 0, e.radial_count.getD 0, e.rotation.getD 0⟩,
     none⟩

end RGA

deriving instance DecidableEq for Except

namespace RGA

/-! ## Helper lemmas about the load/export pipeline -/

lemma bindE_error {ε α β : Type} (e : ε) (f : α → Except ε β) :
    (Except.error e : Except ε α) >>= f = .error e := rfl

lemma bindE_ok {ε α β : Type} (a : α) (f : α → Except ε β) :
    (Except.ok a : Except ε α) >>= f = f a := rfl

lemma mapE_error {ε α β : Type} (e : ε) (f : α → β) :
    f <$> (Except.error e : Except ε α) = .error e := rfl

lemma parseElem_eq (e : NodeData) (i : ℤ) (hid : e.id = some i) :
    parseElem e =
      (if (if e.scale.getD 0 = 0 then 1 else e.scale.getD 0) < 0 then
        .error (.negScale i)
       else if e.radial_radius.getD 0 < 0 then .error (.negRadius i)
       else .ok ⟨i, e.base_parent, e.transform_parent,
                 (if e.scale.getD 0 = 0 then 1 else e.scale.getD 0),
                 e.radial_radius.getD 0, e.radial_count.getD 0,
                 e.rotation.getD 0, e.comment⟩) := by
  simp only [parseElem, hid]
  cases e.scale <;> cases e.radial_radius <;> cases e.radial_count <;>
    cases e.rotation <;> rfl

lemma parseAll_error_of_mem {e : NodeData} {l : List NodeData} {er : VErr}
    (hmem : e ∈ l) (herr : parseElem e = .error er) :
    ∃ er2, parseAll l = .error er2 := by
  induction l with
  | nil => cases hmem
  | cons a rest ih =>
    rcases List.mem_cons.mp hmem with rfl | hmem'
    · exact ⟨er, by simp [parseAll, herr, bindE_error]⟩
    · cases ha : parseElem a with
      | error er3 => exact ⟨er3, by simp [parseAll, ha, bindE_error]⟩
      | ok n =>
        rcases ih hmem' with ⟨er2, h2⟩
        exact ⟨er2, by simp [parseAll, ha, h2, bindE_ok, bindE_error, mapE_error]⟩

lemma fromJSON_error_of_parse_error {d : JsonDoc} {l : List NodeData}
    {e : NodeData} {er : VErr}
    (hn : d.nodes = some l) (hmem : e ∈ l) (herr : parseElem e = .error er) :
    ∃ er2, fromJSON d = .error er2 := by
  rcases parseAll_error_of_mem hmem herr with ⟨er2, h2⟩
  exact ⟨er2, by simp [fromJSON, hn, h2, bindE_error, mapE_error]⟩

lemma parseAll_ok_forall₂ {l : List NodeData} {ns : List GNode}
    (h : parseAll l = .ok ns) :
    List.Forall₂ (fun e n => parseElem e = .ok n) l ns := by
  induction l generalizing ns with
  | nil =>
    simp only [parseAll] at h
    cases h
    exact List.Forall₂.nil
  | cons a rest ih =>
    cases ha : parseElem a with
    | error er => simp [parseAll, ha, bindE_error] at h
    | ok n0 =>
      cases hrest : parseAll rest with
      | error er => simp [parseAll, ha, hrest, bindE_ok, bindE_error] at h
      | ok ns' =>
        simp only [parseAll, ha, hrest, bindE_ok] at h
        cases h
        exact List.Forall₂.cons ha (ih hrest)

lemma parseElem_ok_fields {e : NodeData} {n : GNode} (h : parseElem e = .ok n) :
    e.id = some n.id ∧ n.baseParent = e.base_parent ∧
    n.transformParent = e.transform_parent ∧
    n.scale = (if e.scale.getD 0 = 0 then 1 else e.scale.getD 0) ∧
    n.radialRadius = e.radial_radius.getD 0 ∧
    n.radialCount = e.radial_count.getD 0 ∧
    n.rotation = e.rotation.getD 0 ∧ n.comment = e.comment := by
  cases hid : e.id with
  | none => simp [parseElem, hid] at h
  | some i =>
    rw [parseElem_eq e i hid] at h
    split_ifs at h with h1 h2 h3 h4 h5 <;> cases h <;>
      exact ⟨rfl, rfl, rfl, by simp [h1], rfl, rfl, rfl, rfl⟩

lemma exportElem_parse {e : NodeData} {n : GNode} (h : parseElem e = .ok n) :
    exportElem n = codeRoundTrip e := by
  obtain ⟨hid, hbp, htp, hsc, hrr, hrc, hrot, hcm⟩ := parseElem_ok_fields h
  by_cases hroot : e.base_parent = none ∧ e.transform_parent = none
  · simp [exportElem, codeRoundTrip, GNode.isRoot, hbp, htp, hroot, hid, hsc,
      hrr, hrc, hrot]
  · simp [exportElem, codeRoundTrip, GNode.isRoot, hbp, htp, hroot, hid, hsc,
      hrr, hrc, hrot]

lemma forall₂_export {l : List NodeData} {ns : List GNode}
    (h : List.Forall₂ (fun e n => parseElem e = .ok n) l ns) :
    ns.map exportElem = l.map codeRoundTrip := by
  induction h with
  | nil => rfl
  | cons h _ ih => simp [exportElem_parse h, ih]

lemma forall₂_ids {l : List NodeData} {ns : List GNode}
    (h : List.Forall₂ (fun e n => parseElem e = .ok n) l ns) :
    l.map NodeData.id = ns.map (fun n => some n.id) := by
  induction h with
  | nil => rfl
  | cons h _ ih => simp [ih, (parseElem_ok_fields h).1]

lemma map_snd_pair (ns : List GNode) :
    (List.map (fun n => (n.id, n)) ns).map (fun p => p.2) = ns := by
  induction ns with
  | nil => rfl
  | cons a t ih => simp [ih]

lemma foldl_addNode_eq_append :
    ∀ (ns : List GNode) (acc : List (ℤ × GNode)),
      (∀ n ∈ ns, ∀ p ∈ acc, p.1 ≠ n.id) →
      (ns.map GNode.id).Nodup →
      (ns.foldl GraphM.addNode ⟨acc⟩).nodes = acc ++ ns.map (fun n => (n.id, n))
  | [], acc, _, _ => by simp
  | n :: rest, acc, hdisj, hnd => by
    have hnotin : acc.any (fun p => p.1 = n.id) = false := by
      simp only [List.any_eq_false, decide_eq_true_eq]
      intro p hp
      exact hdisj n (by simp) p hp
    have step : GraphM.addNode ⟨acc⟩ n = ⟨acc ++ [(n.id, n)]⟩ := by
      simp [GraphM.addNode, mapSet, hnotin]
    have hnd2 := hnd
    rw [List.map_cons, List.nodup_cons] at hnd2
    have hdisj' : ∀ m ∈ rest, ∀ p ∈ acc ++ [(n.id, n)], p.1 ≠ m.id := by
      intro m hm p hp
      rcases List.mem_append.mp hp with hp | hp
      · exact hdisj m (by simp [hm]) p hp
      · have hp' : p = (n.id, n) := by simpa using hp
        subst hp'
        intro hcontra
        have hcontra' : n.id = m.id := hcontra
        exact hnd2.1 (by rw [hcontra']; exact List.mem_map_of_mem _ hm)
    rw [List.foldl_cons, step,
      foldl_addNode_eq_append rest (acc ++ [(n.id, n)]) hdisj' hnd2.2]
    simp

/-! ## Helper lemmas about id reassignment (renderer.js) -/

lemma lookup_some_mem {l : List (ℕ × ℕ)} {a b : ℕ}
    (h : List.lookup a l = some b) : (a, b) ∈ l := by
  rcases List.lookup_eq_some_iff.mp h with ⟨l₁, l₂, rfl, -⟩
  simp

lemma lookup_none_of_forall {l : List (ℕ × ℕ)} {a : ℕ}
    (h : ∀ kv ∈ l, kv.1 ≠ a) : List.lookup a l = none := by
  rw [List.lookup_eq_none_iff]
  intro p hp
  simpa [bne_iff_ne] using Ne.symm (h p hp)

lemma forall_of_lookup_none {l : List (ℕ × ℕ)} {a : ℕ}
    (h : List.lookup a l = none) : ∀ kv ∈ l, kv.1 ≠ a := by
  rw [List.lookup_eq_none_iff] at h
  intro kv hkv
  exact fun hc => by simpa [bne_iff_ne, hc] using h kv hkv

lemma reassignGo_cons_sentinel (flip : Bool) (rest : List ℕ)
    (m : List (ℕ × ℕ)) (c : ℕ) :
    reassignGo flip (sentinel :: rest) m c =
      (sentinel :: (reassignGo flip rest m c).1, (reassignGo flip rest m c).2) := by
  simp [reassignGo]

lemma reassignGo_cons_hit (flip : Bool) {s : ℕ} (hs : s ≠ sentinel)
    {m : List (ℕ × ℕ)} {nid : ℕ} (hl : List.lookup s m = some nid)
    (rest : List ℕ) (c : ℕ) :
    reassignGo flip (s :: rest) m c =
      (nid :: (reassignGo flip rest m c).1, (reassignGo flip rest m c).2) := by
  simp [reassignGo, hs, hl]

lemma reassignGo_cons_fresh (flip : Bool) {s : ℕ} (hs : s ≠ sentinel)
    {m : List (ℕ × ℕ)} (hl : List.lookup s m = none) (rest : List ℕ) (c : ℕ) :
    reassignGo flip (s :: rest) m c =
      ((c + (if flip then 1 - s % 2 else s % 2)) ::
        (reassignGo flip rest
          ((s, c + (if flip then 1 - s % 2 else s % 2)) :: m) (c + 2)).1,
       (reassignGo flip rest
          ((s, c + (if flip then 1 - s % 2 else s % 2)) :: m) (c + 2)).2) := by
  simp [reassignGo, hs, hl]

lemma np_le_one (flip : Bool) (s : ℕ) : (if flip then 1 - s % 2 else s % 2) ≤ 1 := by
  cases flip
  · simp only [Bool.false_eq_true, if_false]
    omega
  · simp only [if_true]
    omega

lemma reassignGo_length (flip : Bool) :
    ∀ (src : List ℕ) (m : List (ℕ × ℕ)) (c : ℕ),
    (reassignGo flip src m c).1.length = src.length
  | [], _, _ => rfl
  | s :: rest, m, c => by
    by_cases hs : s = sentinel
    · subst hs
      rw [reassignGo_cons_sentinel]
      simp [reassignGo_length flip rest]
    · cases hl : List.lookup s m with
      | some nid =>
        rw [reassignGo_cons_hit flip hs hl]
        simp [reassignGo_length flip rest]
      | none =>
        rw [reassignGo_cons_fresh flip hs hl]
        simp [reassignGo_length flip rest]

lemma reassignGo_counter_le (flip : Bool) :
    ∀ (src : List ℕ) (m : List (ℕ × ℕ)) (c : ℕ),
    (reassignGo flip src m c).2.2 ≤ c + 2 * src.length
  | [], _, _ => by simp [reassignGo]
  | s :: rest, m, c => by
    simp only [List.length_cons]
    by_cases hs : s = sentinel
    · subst hs
      rw [reassignGo_cons_sentinel]
      dsimp only
      have := reassignGo_counter_le flip rest m c
      omega
    · cases hl : List.lookup s m with
      | some nid =>
        rw [reassignGo_cons_hit flip hs hl]
        dsimp only
        have := reassignGo_counter_le flip rest m c
        omega
      | none =>
        rw [reassignGo_cons_fresh flip hs hl]
        dsimp only
        have := reassignGo_counter_le flip rest
          ((s, c + (if flip then 1 - s % 2 else s % 2)) :: m) (c + 2)
        omega

lemma reassignGo_spec (flip : Bool) :
    ∀ (src : List ℕ) (m : List (ℕ × ℕ)) (c : ℕ),
    ∃ pre : List (ℕ × ℕ),
      (reassignGo flip src m c).2.1 = pre ++ m ∧
      (reassignGo flip src m c).2.2 = c + 2 * pre.length ∧
      (∀ kv ∈ pre, c ≤ kv.2 ∧ kv.2 < c + 2 * pre.length) ∧
      (pre.map Prod.snd).Nodup ∧
      (pre.map Prod.fst).Nodup ∧
      (∀ kv ∈ pre, List.lookup kv.1 m = none)
  | [], m, c => ⟨[], rfl, by simp [reassignGo], by simp, by simp, by simp, by simp⟩
  | s :: rest, m, c => by
    by_cases hs : s = sentinel
    · subst hs
      rw [reassignGo_cons_sentinel]
      exact reassignGo_spec flip rest m c
    · cases hl : List.lookup s m with
      | some nid =>
        rw [reassignGo_cons_hit flip hs hl]
        exact reassignGo_spec flip rest m c
      | none =>
        rw [reassignGo_cons_fresh flip hs hl]
        obtain ⟨pre, h1, h2, h3, h4, h5, h6⟩ :=
          reassignGo_spec flip rest
            ((s, c + (if flip then 1 - s % 2 else s % 2)) :: m) (c + 2)
        have hnp := np_le_one flip s
        refine ⟨pre ++ [(s, c + (if flip then 1 - s % 2 else s % 2))],
          ?_, ?_, ?_, ?_, ?_, ?_⟩
        · rw [h1]
          simp
        · rw [h2]
          simp only [List.length_append, List.length_cons, List.length_nil]
          omega
        · intro kv hkv
          simp only [List.length_append, List.length_cons, List.length_nil]
          rcases List.mem_append.mp hkv with hkv | hkv
          · have := h3 kv hkv
            omega
          · have hkv' : kv = (s, c + (if flip then 1 - s % 2 else s % 2)) := by
              simpa using hkv
            subst hkv'
            simp only
            omega
        · rw [List.map_append]
          refine List.Nodup.append h4 (by simp) ?_
          intro x hx hy
          simp only [List.map_cons, List.map_nil, List.mem_singleton] at hy
          subst hy
          rcases List.mem_map.mp hx with ⟨kv, hkv, hkv2⟩
          have := (h3 kv hkv).1
          omega
        · rw [List.map_append]
          refine List.Nodup.append h5 (by simp) ?_
          intro x hx hy
          simp only [List.map_cons, List.map_nil, List.mem_singleton] at hy
          subst hy
          rcases List.mem_map.mp hx with ⟨kv, hkv, hfst⟩
          have hne := forall_of_lookup_none (h6 kv hkv) _ (List.mem_cons_self _ _)
          exact hne hfst.symm
        · intro kv hkv
          rcases List.mem_append.mp hkv with hkv | hkv
          · have hnone := h6 kv hkv
            rw [List.lookup_cons] at hnone
            split at hnone
            · cases hnone
            · exact hnone
          · have hkv' : kv = (s, c + (if flip then 1 - s % 2 else s % 2)) := by
              simpa using hkv
            subst hkv'
            exact hl

lemma reassignGo_out (flip : Bool) :
    ∀ (src : List ℕ) (m : List (ℕ × ℕ)) (c : ℕ),
    (m.map Prod.fst).Nodup →
    ∀ i : ℕ,
      (src.getD i sentinel = sentinel ∧
        (reassignGo flip src m c).1.getD i sentinel = sentinel)
    ∨ (src.getD i sentinel ≠ sentinel ∧
        List.lookup (src.getD i sentinel) (reassignGo flip src m c).2.1 =
          some ((reassignGo flip src m c).1.getD i sentinel))
  | [], m, c, hk, i => Or.inl ⟨by simp, by simp [reassignGo]⟩
  | s :: rest, m, c, hk, i => by
    by_cases hs : s = sentinel
    · subst hs
      rw [reassignGo_cons_sentinel]
      dsimp only
      cases i with
      | zero => exact Or.inl ⟨by simp, by simp⟩
      | succ i =>
        have h := reassignGo_out flip rest m c hk i
        simpa [List.getD_cons_succ] using h
    · cases hl : List.lookup s m with
      | some nid =>
        rw [reassignGo_cons_hit flip hs hl]
        dsimp only
        cases i with
        | zero =>
          refine Or.inr ⟨by simpa using hs, ?_⟩
          obtain ⟨pre, h1, h2, h3, h4, h5, h6⟩ := reassignGo_spec flip rest m c
          have hpre : List.lookup s pre = none := by
            apply lookup_none_of_forall
            intro kv hkv hceq
            have h0 := h6 kv hkv
            rw [hceq, hl] at h0
            cases h0
          simp only [List.getD_cons_zero, h1, List.lookup_append, hpre, hl,
            Option.none_or]
        | succ i =>
          have h := reassignGo_out flip rest m c hk i
          simpa [List.getD_cons_succ] using h
      | none =>
        rw [reassignGo_cons_fresh flip hs hl]
        dsimp only
        have hk' : (((s, c + (if flip then 1 - s % 2 else s % 2)) :: m).map
            Prod.fst).Nodup := by
          simp only [List.map_cons, List.nodup_cons]
          refine ⟨fun hmem => ?_, hk⟩
          rcases List.mem_map.mp hmem with ⟨kv, hkv, hfst⟩
          exact forall_of_lookup_none hl kv hkv hfst
        cases i with
        | zero =>
          refine Or.inr ⟨by simpa using hs, ?_⟩
          obtain ⟨pre, h1, h2, h3, h4, h5, h6⟩ :=
            reassignGo_spec flip rest
              ((s, c + (if flip then 1 - s % 2 else s % 2)) :: m) (c + 2)
          have hpre : List.lookup s pre = none := by
            apply lookup_none_of_forall
            intro kv hkv hceq
            have h0 := forall_of_lookup_none (h6 kv hkv) _ (List.mem_cons_self _ _)
            exact h0 (by rw [hceq])
          simp only [List.getD_cons_zero, h1, List.lookup_append, hpre,
            Option.none_or, List.lookup_cons]
          simp
        | succ i =>
          have h := reassignGo_out flip rest
            ((s, c + (if flip then 1 - s % 2 else s % 2)) :: m) (c + 2) hk' i
          simpa [List.getD_cons_succ] using h

lemma reassignGo_out_parity (flip : Bool) (p : ℕ) :
    ∀ (src : List ℕ) (m : List (ℕ × ℕ)) (c : ℕ),
    c % 2 = 0 →
    (∀ s ∈ src, s ≠ sentinel → s % 2 = p) →
    (∀ kv ∈ m, kv.2 % 2 = (if flip then 1 - p else p)) →
    ∀ v ∈ (reassignGo flip src m c).1, v ≠ sentinel →
      v % 2 = (if flip then 1 - p else p)
  | [], m, c, hc, hsrc, hm => by simp [reassignGo]
  | s :: rest, m, c, hc, hsrc, hm => by
    by_cases hs : s = sentinel
    · subst hs
      rw [reassignGo_cons_sentinel]
      dsimp only
      intro v hv hvne
      rcases List.mem_cons.mp hv with rfl | hv'
      · exact absurd rfl hvne
      · exact reassignGo_out_parity flip p rest m c hc
          (fun t ht => hsrc t (by simp [ht])) hm v hv' hvne
    · cases hl : List.lookup s m with
      | some nid =>
        rw [reassignGo_cons_hit flip hs hl]
        dsimp only
        intro v hv hvne
        rcases List.mem_cons.mp hv with rfl | hv'
        · exact hm _ (lookup_some_mem hl)
        · exact reassignGo_out_parity flip p rest m c hc
            (fun t ht => hsrc t (by simp [ht])) hm v hv' hvne
      | none =>
        rw [reassignGo_cons_fresh flip hs hl]
        dsimp only
        have hsp : s % 2 = p := hsrc s (by simp) hs
        have hp1 : p ≤ 1 := by rw [← hsp]; omega
        have hval : (c + (if flip then 1 - s % 2 else s % 2)) % 2 =
            (if flip then 1 - p else p) := by
          rw [hsp]
          cases flip
          · simpa using by omega
          · simpa using by omega
        intro v hv hvne
        rcases List.mem_cons.mp hv with rfl | hv'
        · exact hval
        · refine reassignGo_out_parity flip p rest _ (c + 2) (by omega)
            (fun t ht => hsrc t (by simp [ht])) ?_ v hv' hvne
          intro kv hkv
          rcases List.mem_cons.mp hkv with rfl | hkv'
          · exact hval
          · exact hm kv hkv'

/-! ## Concrete inputs used by the claims -/

/-- `{nodes:[{id:0, base_parent:0}]}`. -/
def docC6 : JsonDoc := ⟨some [⟨some 0, some 0, none, none, none, none, none, none⟩]⟩

/-- A root node (as built by `new Node(0)` / loaded from `{id:0}`). -/
def rootN : GNode := ⟨0, none, none, 1, 0, 0, 0, none⟩

/-- `{id:1, base_parent:0, transform_parent:0}` loaded. -/
def child1 : GNode := ⟨1, some 0, some 0, 1, 0, 0, 0, none⟩

/-- `{id:2, base_parent:1, transform_parent:1}` loaded. -/
def child2 : GNode := ⟨2, some 1, some 1, 1, 0, 0, 0, none⟩

/-- A valid three-node graph: root `0`, node `1` over the root, node `2`
depending on node `1` through both parents. -/
def gC3 : GraphM := ⟨[(0, rootN), (1, child1), (2, child2)]⟩

/-- The `nodes` array
`[{id:0},{id:1, base_parent:0, transform_parent:0, comment:"hi"}]`. -/
def ldC4 : List NodeData :=
  [⟨some 0, none, none, none, none, none, none, none⟩,
   ⟨some 1, some 0, some 0, none, none, none, none, some "hi"⟩]

/-- `{nodes:[{id:0},{id:1, base_parent:0, transform_parent:0, comment:"hi"}]}`. -/
def docC4 : JsonDoc := ⟨some ldC4⟩

/-- The graph `docC4` loads to. -/
def gC4 : GraphM :=
  ⟨[(0, rootN), (1, ⟨1, some 0, some 0, 1, 0, 0, 0, some "hi"⟩)]⟩

/-! ## C3 -/

/-- C3: refuted in part — deleting node `1` of the valid graph `gC3`
(referenced by node `2` as both parents) does re-run validation and reports
the dangling-reference error, but the handler leaves the graph *without*
node `1` instead of restoring it; and `Graph.addNode` itself mutates the map
with no validation at all (here it accepts a node whose parents do not
exist). -/
theorem c3_deleteNode_reports_dangling_but_mutates :
    deleteNodeHandler gC3 1 =
      (⟨[(0, rootN), (2, child2)]⟩, some (.danglingBase 2 1))
  ∧ (⟨[(0, rootN), (2, child2)]⟩ : GraphM) ≠ gC3
  ∧ GraphM.addNode ⟨[(0, rootN)]⟩ child2 = ⟨[(0, rootN), (2, child2)]⟩ := by
  decide

/-! ## C6 -/

/-- C6, counterexample: loading `{nodes:[{id:0, base_parent:0}]}` does fail,
but with the root-count error (the self-parented node is not a root, so the
graph has zero roots and root-uniqueness is checked first), which is not a
self-reference error. -/
theorem c6_self_parent_fails_root_count_not_self_reference :
    fromJSON docC6 = .error .rootCountZero
  ∧ VErr.isSelfRef .rootCountZero = false := by
  decide

/-- C6, amended: loading the single-node document `{id:0, base_parent:0}`
fails with `RootCountError` (zero roots) — root-count validation runs before
the self-reference check and a self-parented node is not a root. -/
theorem c6_self_parent_fails_with_root_count_error :
    fromJSON docC6 = .error .rootCountZero := by
  decide

/-! ## C7 -/

/-- C7: confirmed — for a document element with an id, (1) under the
non-negativity checks the stored `Node.scale` is already the normalized value
(`scale` 0 or absent becomes 1.0 at load time; any other non-negative value
is used as-is); (2) a negative `scale` makes the element fail with the
negative-scale error; (3) a negative `radial_radius` (with non-negative
scale) fails with the negative-radius error; (4) any element error makes the
whole `fromJSON` load fail. -/
theorem c7_scale_normalized_at_load (e : NodeData) (i : ℤ) (hid : e.id = some i) :
    (0 ≤ e.scale.getD 0 → 0 ≤ e.radial_radius.getD 0 →
      (parseElem e).map GNode.scale =
        .ok (if e.scale.getD 0 = 0 then 1 else e.scale.getD 0))
  ∧ (e.scale.getD 0 < 0 → parseElem e = .error (.negScale i))
  ∧ (0 ≤ e.scale.getD 0 → e.radial_radius.getD 0 < 0 →
      parseElem e = .error (.negRadius i))
  ∧ (∀ (d : JsonDoc) (l : List NodeData) (er : VErr), d.nodes = some l → e ∈ l →
      parseElem e = .error er → ∃ er2, fromJSON d = .error er2) := by
  have hpe := parseElem_eq e i hid
  refine ⟨?_, ?_, ?_, ?_⟩
  · intro hs hr
    have hsc : ¬ ((if e.scale.getD 0 = 0 then 1 else e.scale.getD 0) < 0) := by
      split_ifs with h0
      · norm_num
      · linarith
    rw [hpe, if_neg hsc, if_neg (not_lt.mpr hr)]
    rfl
  · intro hs
    have hne : ¬ e.scale.getD 0 = 0 := by
      intro h; rw [h] at hs; exact absurd hs (by norm_num)
    rw [hpe, if_neg hne, if_pos hs]
  · intro hs hr
    have hsc : ¬ ((if e.scale.getD 0 = 0 then 1 else e.scale.getD 0) < 0) := by
      split_ifs with h0
      · norm_num
      · linarith
    rw [hpe, if_neg hsc, if_pos hr]
  · intro d l er hn hmem herr
    exact fromJSON_error_of_parse_error hn hmem herr

/-- `{id:1, base_parent:0, scale:0}`. -/
def eW1 : NodeData := ⟨some 1, some 0, none, some 0, none, none, none, none⟩

/-- `{id:2, base_parent:0, scale:-3}`. -/
def eW2 : NodeData := ⟨some 2, some 0, none, some (-3), none, none, none, none⟩

/-- Witness for C7: a JSON-level `scale: 0` loads as 1.0, and a negative
scale is rejected. -/
theorem c7_scale_normalized_at_load_witness :
    (parseElem eW1).map GNode.scale = .ok 1
  ∧ parseElem eW2 = .error (.negScale 2) := by
  constructor
  · have h := (c7_scale_normalized_at_load eW1 1 rfl).1 (by norm_num [eW1])
      (by norm_num [eW1])
    simpa [eW1] using h
  · exact (c7_scale_normalized_at_load eW2 2 rfl).2.1 (by norm_num [eW2])

/-! ## C4 -/

/-- C4, counterexample: `docC4` loads successfully, but its export is not the
document normalized with the comment kept (the claim's "equal up to declared
defaults … comment round-tripped"): the export handler drops the non-root
node's `comment:"hi"`.  The third conjunct records what the export actually
produces. -/
theorem c4_comment_not_round_tripped :
    fromJSON docC4 = .ok gC4
  ∧ exportNodes gC4 ≠ ldC4.map specRoundTrip
  ∧ exportNodes gC4 = ldC4.map codeRoundTrip := by
  decide

/-- C4, amended: for every document with pairwise-distinct node ids that
loads successfully, exporting the loaded graph yields exactly the input
`nodes` array normalized by the declared defaults — a root element reduces to
the bare `{id}` object, a non-root element carries all six fields with
`scale` 0/absent becoming 1.0 and the other optional fields their defaults —
except that the `comment` field is dropped, not round-tripped. -/
theorem c4_export_import_roundtrip_up_to_defaults (d : JsonDoc)
    (l : List NodeData) (g : GraphM)
    (hn : d.nodes = some l) (hnd : (l.map NodeData.id).Nodup)
    (hok : fromJSON d = .ok g) :
    exportNodes g = l.map codeRoundTrip := by
  simp only [fromJSON, hn] at hok
  cases hpa : parseAll l with
  | error er => simp [hpa, bindE_error] at hok
  | ok ns =>
    cases hv : validateG (ns.foldl GraphM.addNode ⟨[]⟩) with
    | error er => simp [hpa, hv, bindE_ok, bindE_error] at hok
    | ok u =>
      simp only [hpa, hv, bindE_ok] at hok
      have hg : g = ns.foldl GraphM.addNode ⟨[]⟩ := by
        cases u
        cases hok
        rfl
      subst hg
      have hf2 := parseAll_ok_forall₂ hpa
      have hids := forall₂_ids hf2
      have hnsnd : (ns.map GNode.id).Nodup := by
        rw [hids] at hnd
        have heq : (ns.map (fun n => some n.id)) = (ns.map GNode.id).map some := by
          simp [List.map_map]
        rw [heq] at hnd
        exact hnd.of_map some
      have hfold := foldl_addNode_eq_append ns [] (by intro n _ p hp; cases hp)
        hnsnd
      rw [exportNodes, GraphM.getAllNodes, hfold, List.nil_append, map_snd_pair]
      exact forall₂_export hf2

/-- Witness for the amended C4 round trip on `docC4`. -/
theorem c4_export_import_roundtrip_up_to_defaults_witness :
    (ldC4.map NodeData.id).Nodup ∧ fromJSON docC4 = .ok gC4
  ∧ exportNodes gC4 = ldC4.map codeRoundTrip :=
  ⟨by decide, by decide,
   c4_export_import_roundtrip_up_to_defaults docC4 ldC4 gC4 rfl (by decide)
     (by decide)⟩

/-! ## C10 -/

/-- A one-pixel renderer environment used by witnesses. -/
def envW1 : REnv := ⟨1, -2, 2, -2, 2, fun _ => ⟨1, 0⟩, fun _ => true⟩

/-- C10, counterexample: with `nextPixelId = 4294967294` (reachable: the
counter starts at 0 and grows by 2 per allocation), reassigning the single
non-sentinel source id `4294967294` with flipped parity allocates the id
`4294967294 + 1 = 0xFFFFFFFF` — the transparency sentinel itself — so the
output pixel is the sentinel while the input pixel is not: the transparency
pattern is not preserved. -/
theorem c10_sentinel_collision :
    (reassignIds [4294967294] true 4294967294).1 = [sentinel]
  ∧ (4294967294 : ℕ) ≠ sentinel := by
  decide

/-- C10, amended: as long as every id the call can allocate stays below the
sentinel (`nextPixelId + 2·length ≤ 0xFFFFFFFF`), `reassignIds` returns a
matrix with exactly the input's transparency pattern (pixel `i` is the
sentinel iff it was), and any two pixels sharing one non-sentinel source id
are mapped to one and the same new id. -/
theorem c10_reassign_transparency_pattern (src : List ℕ) (flip : Bool) (c : ℕ)
    (hb : c + 2 * src.length ≤ sentinel) :
    (reassignIds src flip c).1.length = src.length
  ∧ (∀ i, (reassignIds src flip c).1.getD i sentinel = sentinel ↔
        src.getD i sentinel = sentinel)
  ∧ (∀ i j, src.getD i sentinel = src.getD j sentinel →
      src.getD i sentinel ≠ sentinel →
      (reassignIds src flip c).1.getD i sentinel =
        (reassignIds src flip c).1.getD j sentinel) := by
  obtain ⟨pre, h1, h2, h3, h4, h5, h6⟩ := reassignGo_spec flip src [] c
  have hklen : pre.length ≤ src.length := by
    have hc2 := reassignGo_counter_le flip src [] c
    rw [h2] at hc2
    omega
  have hvne : ∀ kv ∈ pre, kv.2 ≠ sentinel := by
    intro kv hkv
    have h := h3 kv hkv
    omega
  have hout := reassignGo_out flip src [] c (by simp)
  refine ⟨reassignGo_length flip src [] c, ?_, ?_⟩
  · intro i
    rcases hout i with ⟨hsi, hoi⟩ | ⟨hsi, hlk⟩
    · constructor
      · intro _; exact hsi
      · intro _; exact hoi
    · have hmem := lookup_some_mem hlk
      rw [h1, List.append_nil] at hmem
      have := hvne _ hmem
      constructor
      · intro hcon; exact absurd hcon this
      · intro hcon; exact absurd hcon hsi
  · intro i j hij hsi
    rcases hout i with ⟨hsi', _⟩ | ⟨_, hlki⟩
    · exact absurd hsi' hsi
    rcases hout j with ⟨hsj', _⟩ | ⟨_, hlkj⟩
    · rw [hij] at hsi; exact absurd hsj' hsi
    rw [hij] at hlki
    rw [hlki] at hlkj
    exact (Option.some.injEq _ _ ▸ hlkj : _)

/-- Witness for the amended C10 on a small matrix. -/
theorem c10_reassign_transparency_pattern_witness :
    ((0:ℕ) + 2 * ([5, sentinel, 5] : List ℕ).length ≤ sentinel)
  ∧ (reassignIds [5, sentinel, 5] false 0).1.getD 1 sentinel = sentinel
  ∧ (reassignIds [5, sentinel, 5] false 0).1.getD 0 sentinel =
      (reassignIds [5, sentinel, 5] false 0).1.getD 2 sentinel := by
  have h := c10_reassign_transparency_pattern [5, sentinel, 5] false 0 (by decide)
  exact ⟨by decide, (h.2.1 1).mpr (by decide), h.2.2 0 2 (by decide) (by decide)⟩

/-! ## C9 -/

/-- C9: confirmed — `nextPixelId` starts at 0 (`initRState`), never
decreases, advances by exactly 2 per assigned id (one per distinct source
id), stays even when it started even; the ids assigned by one `reassignIds`
call are pairwise distinct and lie in `[c, c')`, so ids of successive calls
never collide; `getRootLayers` assigns the (even) current counter as the
single root region id and advances the counter by 2. -/
theorem c9_ids_unique_even (src : List ℕ) (flip : Bool) (c : ℕ)
    (hc : c % 2 = 0) (env : REnv) (st : RState) (hst : st.counter % 2 = 0) :
    c ≤ (reassignIds src flip c).2
  ∧ (reassignIds src flip c).2 % 2 = 0
  ∧ (reassignIds src flip c).2 =
      c + 2 * ((reassignGo flip src [] c).2.1).length
  ∧ (((reassignGo flip src [] c).2.1).map Prod.snd).Nodup
  ∧ (∀ kv ∈ (reassignGo flip src [] c).2.1,
      c ≤ kv.2 ∧ kv.2 < (reassignIds src flip c).2)
  ∧ initRState.counter = 0
  ∧ (getRootLayers env st).2.counter = st.counter + 2
  ∧ (∀ ℓ ∈ (getRootLayers env st).1, ∀ v ∈ ℓ.idMatrix,
      v ≠ sentinel → v % 2 = 0) := by
  obtain ⟨pre, h1, h2, h3, h4, h5, h6⟩ := reassignGo_spec flip src [] c
  rw [List.append_nil] at h1
  have hcnt : (reassignIds src flip c).2 = c + 2 * pre.length := h2
  refine ⟨by omega, by omega, ?_, ?_, ?_, rfl, rfl, ?_⟩
  · rw [hcnt, h1]
  · rw [h1]; exact h4
  · rw [h1, hcnt]
    exact h3
  · intro ℓ hℓ v hv hvne
    simp only [getRootLayers, List.mem_singleton] at hℓ
    subst hℓ
    simp only [List.mem_map, List.mem_range] at hv
    rcases hv with ⟨k, _, hk⟩
    by_cases hcov : env.rootCov k
    · rw [if_pos hcov] at hk
      rw [← hk]
      exact hst
    · rw [if_neg hcov] at hk
      exact absurd hk.symm hvne

/-- Witness for C9. -/
theorem c9_ids_unique_even_witness :
    ((10:ℕ) % 2 = 0) ∧ (initRState.counter % 2 = 0)
  ∧ 10 ≤ (reassignIds [4, 7] true 10).2
  ∧ (reassignIds [4, 7] true 10).2 % 2 = 0 := by
  have h := c9_ids_unique_even [4, 7] true 10 (by decide) envW1 initRState
    (by decide)
  exact ⟨by decide, by decide, h.1, h.2.1⟩

end RGA

namespace RGA

lemma bindO_some {α β : Type} (a : α) (f : α → Option β) :
    (some a >>= f) = f a := rfl

lemma bindO_none {α β : Type} (f : α → Option β) :
    ((none : Option α) >>= f) = none := rfl

lemma lookupZ_some_mem {α : Type} {l : List (ℤ × α)} {a : ℤ} {b : α}
    (h : List.lookup a l = some b) : (a, b) ∈ l := by
  rcases List.lookup_eq_some_iff.mp h with ⟨l₁, l₂, rfl, -⟩
  simp

lemma getD_mem_of_ne {l : List ℕ} {i d : ℕ} (h : l.getD i d ≠ d) :
    l.getD i d ∈ l := by
  by_cases hi : i < l.length
  · rw [List.getD_eq_getElem l d hi]
    exact List.getElem_mem _
  · rw [List.getD_eq_default l d (by omega)] at h
    exact absurd rfl h

lemma copySample_mem {env : REnv} {src : List ℕ} {scale rd rp pd : ℚ}
    {destIndex v : ℕ}
    (h : copySample env src scale rd rp pd destIndex = some v) :
    v ∈ src ∧ v ≠ sentinel := by
  unfold copySample at h
  dsimp only at h
  split at h
  · cases h
  · split at h
    · split at h
      · split at h
        · cases h
        · rename_i hvs
          injection h with h
          subst h
          exact ⟨getD_mem_of_ne hvs, hvs⟩
      · cases h
    · cases h

lemma transformIdMatrixDirect_mem {env : REnv} {src res : List ℕ}
    {scale rd rp pd : ℚ} :
    ∀ v ∈ transformIdMatrixDirect env src res scale rd rp pd,
      v ≠ sentinel → v ∈ src ∨ v ∈ res := by
  intro v hv hvne
  unfold transformIdMatrixDirect at hv
  rcases List.mem_map.mp hv with ⟨destIndex, _, hbody⟩
  by_cases hcur : res.getD destIndex sentinel ≠ sentinel
  · rw [if_pos hcur] at hbody
    right
    rw [← hbody]
    exact getD_mem_of_ne hcur
  · rw [if_neg hcur] at hbody
    cases hcs : copySample env src scale rd rp pd destIndex with
    | none => rw [hcs] at hbody; exact absurd hbody.symm hvne
    | some w =>
      rw [hcs] at hbody
      left
      rw [← hbody]
      exact (copySample_mem hcs).1

lemma applyTransformationsId_mem {env : REnv} {src : List ℕ}
    {scale radialRadius : ℚ} {radialCount : ℤ} {rotation : ℚ} :
    ∀ v ∈ applyTransformationsId env src scale radialRadius radialCount rotation,
      v ≠ sentinel → v ∈ src := by
  have hrep : ∀ v ∈ List.replicate (env.size * env.size) sentinel,
      v ≠ sentinel → v ∈ src := by
    intro v hv hvne
    exact absurd (List.eq_of_mem_replicate hv) hvne
  unfold applyTransformationsId
  split_ifs with h0
  · intro v hv hvne
    rcases transformIdMatrixDirect_mem v hv hvne with h | h
    · exact h
    · exact absurd (List.eq_of_mem_replicate h) hvne
  · -- fold over copies, generalize the accumulator
    have hfold : ∀ (is : List ℕ) (res : List ℕ),
        (∀ v ∈ res, v ≠ sentinel → v ∈ src) →
        ∀ v ∈ is.foldl
          (fun res (i : ℕ) =>
            transformIdMatrixDirect env src res scale
              (rotation + (i : ℚ) * 360 / (radialCount : ℚ))
              (mathToPixelDistance env radialRadius)
              ((i : ℚ) * 360 / (radialCount : ℚ) - 90)) res,
          v ≠ sentinel → v ∈ src := by
      intro is
      induction is with
      | nil => intro res hres v hv hvne; exact hres v hv hvne
      | cons i rest ih =>
        intro res hres v hv hvne
        refine ih _ ?_ v hv hvne
        intro w hw hwne
        rcases transformIdMatrixDirect_mem w hw hwne with h | h
        · exact h
        · exact hres w h hwne
    intro v hv hvne
    exact hfold _ _ hrep v hv hvne

lemma reassignIds_counter_even (src : List ℕ) (flip : Bool) (c : ℕ)
    (hc : c % 2 = 0) : (reassignIds src flip c).2 % 2 = 0 := by
  obtain ⟨pre, h1, h2, h3, h4, h5, h6⟩ := reassignGo_spec flip src [] c
  have hcnt : (reassignIds src flip c).2 = c + 2 * pre.length := h2
  omega

/-- Every non-sentinel id in a layer has the parity of the layer's depth —
the depth counts exactly the transform-parent edges between the pixel's
origin and the rendered node. -/
def LayerOK (ℓ : Layer) : Prop :=
  ∀ v ∈ ℓ.idMatrix, v ≠ sentinel → v % 2 = ℓ.depth % 2

/-- Renderer-state invariant: even counter, and every cached layer
satisfies the depth-parity property. -/
def StOK (st : RState) : Prop :=
  st.counter % 2 = 0 ∧ ∀ e ∈ st.cache, ∀ ℓ ∈ e.2, LayerOK ℓ

instance (ℓ : Layer) : Decidable (LayerOK ℓ) := by
  unfold LayerOK; infer_instance

instance (st : RState) : Decidable (StOK st) := by
  unfold StOK LayerOK; infer_instance

lemma getRootLayers_ok (env : REnv) (st : RState) (hc : st.counter % 2 = 0) :
    ∀ ℓ ∈ (getRootLayers env st).1, LayerOK ℓ := by
  intro ℓ hℓ
  simp only [getRootLayers, List.mem_singleton] at hℓ
  subst hℓ
  intro v hv hvne
  simp only [List.mem_map, List.mem_range] at hv
  rcases hv with ⟨k, _, hk⟩
  by_cases hcov : env.rootCov k
  · rw [if_pos hcov] at hk
    rw [← hk]
    simpa using hc
  · rw [if_neg hcov] at hk
    exact absurd hk.symm hvne

lemma reassignLayers_false_ok : ∀ (ls : List Layer) (c : ℕ),
    c % 2 = 0 → (∀ ℓ ∈ ls, LayerOK ℓ) →
    (∀ ℓ ∈ (reassignLayers false ls c).1, LayerOK ℓ)
  ∧ (reassignLayers false ls c).2 % 2 = 0
  | [], c, hc, _ => ⟨by simp [reassignLayers], hc⟩
  | ℓ0 :: rest, c, hc, hok => by
    have hc' := reassignIds_counter_even ℓ0.idMatrix false c hc
    have ih := reassignLayers_false_ok rest (reassignIds ℓ0.idMatrix false c).2
      hc' (fun ℓ h => hok ℓ (List.mem_cons_of_mem _ h))
    simp only [reassignLayers]
    refine ⟨?_, ih.2⟩
    intro ℓ hℓ
    rcases List.mem_cons.mp hℓ with rfl | hmem
    · intro v hv hvne
      have hp := reassignGo_out_parity false (ℓ0.depth % 2) ℓ0.idMatrix [] c hc
        (fun s hs hsne => by
          have := hok ℓ0 (List.mem_cons_self _ _) s hs hsne
          simpa using this)
        (by simp) v hv hvne
      simpa using hp
    · exact ih.1 ℓ hmem

lemma transformLayers_true_ok (env : REnv) (node : GNode) :
    ∀ (ls : List Layer) (c : ℕ),
    c % 2 = 0 → (∀ ℓ ∈ ls, LayerOK ℓ) →
    (∀ ℓ ∈ (transformLayers env node ls c).1, LayerOK ℓ)
  ∧ (transformLayers env node ls c).2 % 2 = 0
  | [], c, hc, _ => ⟨by simp [transformLayers], hc⟩
  | ℓ0 :: rest, c, hc, hok => by
    have hc' := reassignIds_counter_even
      (applyTransformationsId env ℓ0.idMatrix node.scale node.radialRadius
        node.radialCount node.rotation) true c hc
    have ih := transformLayers_true_ok env node rest
      (reassignIds
        (applyTransformationsId env ℓ0.idMatrix node.scale node.radialRadius
          node.radialCount node.rotation) true c).2 hc'
      (fun ℓ h => hok ℓ (List.mem_cons_of_mem _ h))
    simp only [transformLayers]
    refine ⟨?_, ih.2⟩
    intro ℓ hℓ
    rcases List.mem_cons.mp hℓ with rfl | hmem
    · intro v hv hvne
      have hp := reassignGo_out_parity true (ℓ0.depth % 2)
        (applyTransformationsId env ℓ0.idMatrix node.scale node.radialRadius
          node.radialCount node.rotation) [] c hc
        (fun s hs hsne => by
          have hmem2 := applyTransformationsId_mem s hs hsne
          exact hok ℓ0 (List.mem_cons_self _ _) s hmem2 hsne)
        (by simp) v hv hvne
      have hdep : (ℓ0.depth + 1) % 2 = 1 - ℓ0.depth % 2 := by omega
      simp only [if_true] at hp
      show v % 2 = (ℓ0.depth + 1) % 2
      omega
    · exact ih.1 ℓ hmem

end RGA

namespace RGA

/-- Full parity invariant of `getNodeLayers`, by induction on the fuel:
from a well-parity state, every produced layer satisfies `LayerOK` and the
resulting state is again well-parity. -/
theorem getNodeLayers_parity (env : REnv) (g : GraphM) :
    ∀ (fuel : ℕ) (nid : ℤ) (st : RState) (L : List Layer) (st' : RState),
      StOK st →
      getNodeLayers env g fuel nid st = some (L, st') →
      (∀ ℓ ∈ L, LayerOK ℓ) ∧ StOK st'
  | 0, _, _, _, _, _, h => by cases h
  | fuel + 1, nid, st, L, st', hst, h => by
    rw [getNodeLayers] at h
    cases hcache : List.lookup nid st.cache with
    | some l =>
      rw [hcache] at h
      cases h
      exact ⟨fun ℓ hℓ => hst.2 _ (lookupZ_some_mem hcache) ℓ hℓ, hst⟩
    | none =>
      rw [hcache] at h
      cases hnode : g.getNode nid with
      | none => rw [hnode, bindO_none] at h; cases h
      | some node =>
        rw [hnode, bindO_some] at h
        by_cases hroot : node.isRoot = true
        · rw [if_pos hroot, bindO_some] at h
          cases h
          refine ⟨getRootLayers_ok env st hst.1, ?_, ?_⟩
          · show (st.counter + 2) % 2 = 0
            have := hst.1
            omega
          · intro e he ℓ hℓ
            rcases List.mem_cons.mp he with rfl | he'
            · exact getRootLayers_ok env st hst.1 ℓ hℓ
            · exact hst.2 e he' ℓ hℓ
        · rw [if_neg hroot] at h
          cases hbp : node.baseParent with
          | none => rw [hbp, bindO_none] at h; cases h
          | some bp =>
            rw [hbp, bindO_some] at h
            cases hrb : getNodeLayers env g fuel bp st with
            | none => rw [hrb, bindO_none] at h; cases h
            | some rb =>
              rw [hrb, bindO_some] at h
              dsimp only at h
              have hb := getNodeLayers_parity env g fuel bp st rb.1 rb.2 hst
                (by rw [hrb])
              have hbase := reassignLayers_false_ok rb.1 rb.2.counter
                hb.2.1 hb.1
              cases htp : node.transformParent with
              | none => rw [htp, bindO_none] at h; cases h
              | some tp =>
                rw [htp, bindO_some] at h
                cases hrt : getNodeLayers env g fuel tp
                    ⟨(reassignLayers false rb.1 rb.2.counter).2, rb.2.cache⟩ with
                | none => rw [hrt, bindO_none] at h; cases h
                | some rt =>
                  rw [hrt, bindO_some] at h
                  have ht := getNodeLayers_parity env g fuel tp
                    ⟨(reassignLayers false rb.1 rb.2.counter).2, rb.2.cache⟩
                    rt.1 rt.2 ⟨hbase.2, hb.2.2⟩ (by rw [hrt])
                  have htr := transformLayers_true_ok env node rt.1 rt.2.counter
                    ht.2.1 ht.1
                  cases h
                  constructor
                  · intro ℓ hℓ
                    rcases List.mem_append.mp hℓ with hm | hm
                    · exact hbase.1 ℓ hm
                    · exact htr.1 ℓ hm
                  · refine ⟨htr.2, ?_⟩
                    intro e he ℓ hℓ
                    rcases List.mem_cons.mp he with rfl | he'
                    · intro v hv hvne
                      rcases List.mem_append.mp hℓ with hm | hm
                      · exact hbase.1 ℓ hm v hv hvne
                      · exact htr.1 ℓ hm v hv hvne
                    · exact ht.2.2 e he' ℓ hℓ

/-- Concrete run of the layer computation on a 1x1 canvas, rendering the
root node of the root-child1-child2 graph, for evaluating the parity
invariant at an input. -/
def c2run : List Layer × RState :=
  (getNodeLayers envW1 gC3 3 0 initRState).getD ([], initRState)

/-- C2: for every environment, graph, fuel, node and well-parity renderer
state, a successful `getNodeLayers` run yields only layers in which every
non-transparent pixel id has parity equal to the layer's depth (the number of
transform-parent edges from the pixel's origin to the rendered node) modulo 2
-- the root layer assigns one even id, base reassignment preserves each
source id's parity, transform reassignment flips it -- and the resulting
state is again well-parity: the counter, advanced by exactly 2 per
allocation, stays even, and every cached layer keeps the invariant. -/
theorem c2_layer_depth_parity (env : REnv) (g : GraphM) (fuel : ℕ) (nid : ℤ)
    (st : RState) (L : List Layer) (st' : RState) (hst : StOK st)
    (h : getNodeLayers env g fuel nid st = some (L, st')) :
    (∀ ℓ ∈ L, ∀ v ∈ ℓ.idMatrix, v ≠ sentinel → v % 2 = ℓ.depth % 2) ∧
      StOK st' :=
  getNodeLayers_parity env g fuel nid st L st' hst h

/-- Witness for C2: the invariant evaluated on the 1x1 canvas, rendering the
root of the three-node chain graph from the initial renderer state. -/
theorem c2_layer_depth_parity_witness :
    StOK initRState ∧
    ((∀ ℓ ∈ c2run.1, ∀ v ∈ ℓ.idMatrix, v ≠ sentinel → v % 2 = ℓ.depth % 2) ∧
      StOK c2run.2) :=
  ⟨by decide, c2_layer_depth_parity envW1 gC3 3 0 initRState c2run.1 c2run.2
    (by decide) (by decide)⟩

end RGA

namespace RGA

lemma getD_map_range {α : Type} (f : ℕ → α) {n d : ℕ} (hd : d < n) (x : α) :
    ((List.range n).map f).getD d x = f d := by
  rw [List.getD_eq_getElem?_getD, List.getElem?_map, List.getElem?_range hd]
  rfl

lemma getD_replicate {α : Type} {n d : ℕ} (x : α) :
    (List.replicate n x).getD d x = x := by
  rw [List.getD_eq_getElem?_getD, List.getElem?_replicate]
  split <;> rfl

lemma transformIdMatrixDirect_getD_keep {env : REnv} {src res : List ℕ}
    {scale A R P : ℚ} {d : ℕ} (hd : d < env.size * env.size)
    (hcur : res.getD d sentinel ≠ sentinel) :
    (transformIdMatrixDirect env src res scale A R P).getD d sentinel =
      res.getD d sentinel := by
  unfold transformIdMatrixDirect
  rw [getD_map_range _ hd]
  dsimp only
  rw [if_pos hcur]

lemma transformIdMatrixDirect_getD_new {env : REnv} {src res : List ℕ}
    {scale A R P : ℚ} {d : ℕ} (hd : d < env.size * env.size)
    (hcur : res.getD d sentinel = sentinel) :
    (transformIdMatrixDirect env src res scale A R P).getD d sentinel =
      (copySample env src scale A R P d).getD sentinel := by
  unfold transformIdMatrixDirect
  rw [getD_map_range _ hd]
  dsimp only
  rw [if_neg (not_not_intro hcur)]
  cases copySample env src scale A R P d <;> rfl

/-- The copy loop of `Renderer.applyTransformations`, abstracted over the
per-copy rotation `A` and placement angle `P`. -/
def foldTI (env : REnv) (src : List ℕ) (scale R : ℚ) (A P : ℕ → ℚ)
    (is : List ℕ) (acc : List ℕ) : List ℕ :=
  is.foldl (fun res i => transformIdMatrixDirect env src res scale (A i) R (P i)) acc

lemma foldTI_cons {env : REnv} {src : List ℕ} {scale R : ℚ} {A P : ℕ → ℚ}
    {i : ℕ} {is acc : List ℕ} :
    foldTI env src scale R A P (i :: is) acc =
      foldTI env src scale R A P is
        (transformIdMatrixDirect env src acc scale (A i) R (P i)) := rfl

lemma foldTI_append {env : REnv} {src : List ℕ} {scale R : ℚ} {A P : ℕ → ℚ}
    {l1 l2 acc : List ℕ} :
    foldTI env src scale R A P (l1 ++ l2) acc =
      foldTI env src scale R A P l2 (foldTI env src scale R A P l1 acc) :=
  List.foldl_append _ _ _ _

lemma foldTI_keep {env : REnv} {src : List ℕ} {scale R : ℚ} {A P : ℕ → ℚ}
    {d : ℕ} (hd : d < env.size * env.size) :
    ∀ (is acc : List ℕ), acc.getD d sentinel ≠ sentinel →
      (foldTI env src scale R A P is acc).getD d sentinel = acc.getD d sentinel
  | [], _, _ => rfl
  | i :: is, acc, hne => by
    rw [foldTI_cons,
      foldTI_keep hd is _
        (by rw [transformIdMatrixDirect_getD_keep hd hne]; exact hne)]
    exact transformIdMatrixDirect_getD_keep hd hne

lemma foldTI_none {env : REnv} {src : List ℕ} {scale R : ℚ} {A P : ℕ → ℚ}
    {d : ℕ} (hd : d < env.size * env.size) :
    ∀ (is acc : List ℕ), acc.getD d sentinel = sentinel →
      (∀ i ∈ is, copySample env src scale (A i) R (P i) d = none) →
      (foldTI env src scale R A P is acc).getD d sentinel = sentinel
  | [], _, hacc, _ => hacc
  | i :: is, acc, hacc, hall => by
    rw [foldTI_cons]
    refine foldTI_none hd is _ ?_ (fun k hk => hall k (List.mem_cons_of_mem _ hk))
    rw [transformIdMatrixDirect_getD_new hd hacc, hall i (List.mem_cons_self _ _)]
    rfl

lemma range_split {c i : ℕ} (hi : i < c) :
    List.range c = List.range i ++ i ::
      (List.range (c - i - 1)).map (fun k => i + 1 + k) := by
  have h1 : c = i + (c - i - 1 + 1) := by omega
  conv_lhs => rw [h1]
  rw [List.range_add, List.range_succ_eq_map, List.map_cons, List.map_map]
  have h2 : ((fun x => i + x) ∘ Nat.succ) = fun k => i + 1 + k := by
    funext k
    simp only [Function.comp_apply, Nat.succ_eq_add_one]
    omega
  rw [h2]
  norm_num

lemma applyTransformationsId_foldTI {env : REnv} {src : List ℕ}
    {scale radialRadius rotation : ℚ} {radialCount : ℤ}
    (h0 : ¬ radialCount = 0) :
    applyTransformationsId env src scale radialRadius radialCount rotation =
      foldTI env src scale (mathToPixelDistance env radialRadius)
        (fun i => rotation + (i : ℚ) * 360 / (radialCount : ℚ))
        (fun i => (i : ℚ) * 360 / (radialCount : ℚ) - 90)
        (List.range radialCount.toNat)
        (List.replicate (env.size * env.size) sentinel) := by
  unfold applyTransformationsId foldTI
  rw [if_neg h0]

lemma radialCopySample_eq {env : REnv} {src : List ℕ}
    {scale radialRadius rotation : ℚ} {radialCount : ℤ} {i d : ℕ} :
    radialCopySample env src scale radialRadius rotation radialCount i d =
      copySample env src scale (rotation + (i : ℚ) * 360 / (radialCount : ℚ))
        (mathToPixelDistance env radialRadius)
        ((i : ℚ) * 360 / (radialCount : ℚ) - 90) d := rfl

lemma drawCopies_succ (raster : ℕ → ℕ → Option ℕ) (n d : ℕ) :
    drawCopies raster (n + 1) d =
      match raster n d with
      | some v => some v
      | none => drawCopies raster n d := by
  unfold drawCopies
  rw [List.range_succ, List.foldl_append]
  rfl

lemma drawCopies_last {raster : ℕ → ℕ → Option ℕ} {d jmax u : ℕ} :
    ∀ {count : ℕ}, jmax < count → raster jmax d = some u →
      (∀ k, jmax < k → k < count → raster k d = none) →
      drawCopies raster count d = some u := by
  intro count
  induction count with
  | zero => intro h _ _; omega
  | succ n ih =>
    intro hjc hru hafter
    rw [drawCopies_succ]
    by_cases hn : jmax = n
    · subst hn
      rw [hru]
    · have hlt : jmax < n := by omega
      rw [hafter n (by omega) (by omega)]
      exact ih hlt hru (fun k h1 h2 => hafter k h1 (by omega))

end RGA

namespace RGA

/-- C8: in `Renderer.applyTransformations` with several radial copies
mapping onto the same destination pixel, the identity matrix keeps the
sample of the lowest covering copy index (an id written by an earlier copy
is never overwritten), while the canvas — each copy drawn over the previous
content by `ctx.drawImage` — keeps the content of the highest covering copy
index, drawn last. -/
theorem c8_radial_overlap_first_id_last_canvas
    (env : REnv) (src : List ℕ) (scale radialRadius rotation : ℚ)
    (radialCount : ℤ) (d : ℕ) (hd : d < env.size * env.size)
    (i j v w : ℕ) (hij : i < j) (hj : j < radialCount.toNat)
    (hi : radialCopySample env src scale radialRadius rotation radialCount i d
      = some v)
    (_hjs : radialCopySample env src scale radialRadius rotation radialCount j d
      = some w)
    (hmin : ∀ k < i,
      radialCopySample env src scale radialRadius rotation radialCount k d
        = none)
    (raster : ℕ → ℕ → Option ℕ) (jmax u : ℕ)
    (hjm : jmax < radialCount.toNat) (hru : raster jmax d = some u)
    (hafter : ∀ k, jmax < k → k < radialCount.toNat → raster k d = none) :
    (applyTransformationsId env src scale radialRadius radialCount
        rotation).getD d sentinel = v ∧
    drawCopies raster radialCount.toNat d = some u := by
  constructor
  · have h0 : ¬ radialCount = 0 := by
      intro h
      rw [h] at hj
      simp at hj
    rw [applyTransformationsId_foldTI h0, range_split (lt_trans hij hj),
      foldTI_append, foldTI_cons]
    have hpre : (foldTI env src scale (mathToPixelDistance env radialRadius)
        (fun k => rotation + (k : ℚ) * 360 / (radialCount : ℚ))
        (fun k => (k : ℚ) * 360 / (radialCount : ℚ) - 90)
        (List.range i)
        (List.replicate (env.size * env.size) sentinel)).getD d sentinel
        = sentinel := by
      refine foldTI_none hd _ _ (getD_replicate _) ?_
      intro k hk
      rw [← radialCopySample_eq]
      exact hmin k (List.mem_range.mp hk)
    have hstep : (transformIdMatrixDirect env src
        (foldTI env src scale (mathToPixelDistance env radialRadius)
          (fun k => rotation + (k : ℚ) * 360 / (radialCount : ℚ))
          (fun k => (k : ℚ) * 360 / (radialCount : ℚ) - 90)
          (List.range i)
          (List.replicate (env.size * env.size) sentinel))
        scale (rotation + (i : ℚ) * 360 / (radialCount : ℚ))
        (mathToPixelDistance env radialRadius)
        ((i : ℚ) * 360 / (radialCount : ℚ) - 90)).getD d sentinel = v := by
      rw [transformIdMatrixDirect_getD_new hd hpre, ← radialCopySample_eq, hi]
      rfl
    rw [foldTI_keep hd _ _ (by rw [hstep]; exact (copySample_mem hi).2), hstep]
  · exact drawCopies_last hjm hru hafter

def angOfW : ℚ → Ang := fun d =>
  if d = 0 then ⟨1, 0⟩ else if d = 180 then ⟨-1, 0⟩
  else if d = -90 then ⟨0, -1⟩ else if d = 90 then ⟨0, 1⟩ else ⟨1, 0⟩

def envW2 : REnv := ⟨2, -2, 2, -2, 2, angOfW, fun _ => true⟩

def srcW : List ℕ := [sentinel, sentinel, sentinel, 7]

def rasterW : ℕ → ℕ → Option ℕ := fun i p =>
  if p = 3 then some (100 + i) else none

/-- Witness for C8: on a 2x2 canvas with two radial copies of radius 0
(both the identity placement), destination pixel 3 is covered by both
copies; the id matrix keeps copy 0's sample 7 and the canvas keeps copy 1's
raster content 101. -/
theorem c8_radial_overlap_first_id_last_canvas_witness :
    (applyTransformationsId envW2 srcW 1 0 2 0).getD 3 sentinel = 7 ∧
    drawCopies rasterW 2 3 = some 101 :=
  c8_radial_overlap_first_id_last_canvas envW2 srcW 1 0 0 2 3 (by decide)
    0 1 7 7 (by decide) (by decide)
    (by
      norm_num [radialCopySample, copySample, mathToPixelDistance, angOfW,
        envW2, srcW, sentinel, round_eq]
      decide)
    (by
      norm_num [radialCopySample, copySample, mathToPixelDistance, angOfW,
        envW2, srcW, sentinel, round_eq]
      decide)
    (fun k hk => absurd hk (Nat.not_lt_zero k))
    rasterW 1 101 (by decide) rfl
    (fun k h1 h2 => absurd h2 (by omega))

end RGA

namespace RGA

/-- Shader uniforms for a two-node graph: node 0 is the root, node 1 has
both parents 0, scale 1, radial radius 0, radial count 1 and rotation 90. -/
noncomputable def sgC1 : SGraph :=
  ⟨2, fun n => if n = 1 then 0 else -1, fun n => if n = 1 then 0 else -1,
   fun _ => 1, fun _ => 0, fun n => if n = 1 then 1 else 0,
   fun n => if n = 1 then 90 else 0⟩

lemma radiansOf_ninety : Real.cos (radiansOf 90) = 0 ∧
    Real.sin (radiansOf 90) = 1 ∧ Real.cos (radiansOf (-90)) = 0 ∧
    Real.sin (radiansOf (-90)) = -1 := by
  have h1 : radiansOf 90 = Real.pi / 2 := by unfold radiansOf; ring
  have h2 : radiansOf (-90) = -(Real.pi / 2) := by unfold radiansOf; ring
  refine ⟨?_, ?_, ?_, ?_⟩
  · rw [h1, Real.cos_pi_div_two]
  · rw [h1, Real.sin_pi_div_two]
  · rw [h2, Real.cos_neg, Real.cos_pi_div_two]
  · rw [h2, Real.sin_neg, Real.sin_pi_div_two]

lemma forwardCopy_c1 : forwardCopy 1 0 90 1 0 (1, 0) = (0, 1) := by
  obtain ⟨hc, hs, _, _⟩ := radiansOf_ninety
  unfold forwardCopy rotateDeg
  norm_num [hc, hs]

lemma inverse_c1 : inverseTransformForCopy sgC1 (0, 1) 1 0 = (0, -1) := by
  obtain ⟨_, _, hcm, hsm⟩ := radiansOf_ninety
  unfold inverseTransformForCopy rotateDeg sgC1
  norm_num [hcm, hsm]

/-- C1: the round trip inverse(forward(p, i), i) is NOT the identity within
1e-4 for all parameters in the claimed ranges: at scale 1, rotation 90,
radial count 1, radial radius 0, copy index 0 and sample point (1, 0), the
compositional renderer's forward transform sends (1, 0) to (0, 1), but the
shader's `inverseTransformForCopy` sends (0, 1) to (0, -1) — the rotation is
undone twice (once up front, once inside the per-copy branch), so the
claimed inversion contract fails at squared distance 2. -/
theorem c1_inverse_forward_round_trip_fails :
    inverseTransformForCopy sgC1 (forwardCopy 1 0 90 1 0 (1, 0)) 1 0
      = (0, -1) ∧
    ¬ within (1 / 10000)
      (inverseTransformForCopy sgC1 (forwardCopy 1 0 90 1 0 (1, 0)) 1 0)
      (1, 0) := by
  rw [forwardCopy_c1, inverse_c1]
  refine ⟨rfl, ?_⟩
  unfold within
  norm_num

end RGA

namespace RGA

/-- Shader uniforms for a five-node chain: node 0 is the root; node n ≥ 1
has base parent 0 and transform parent n − 1; every transform is the
identity (scale 1, radius 0, count 0, rotation 0). -/
noncomputable def sgChain : SGraph :=
  ⟨5, fun n => if n = 0 then -1 else 0,
   fun n => if n = 0 then -1 else (n : ℤ) - 1,
   fun _ => 1, fun _ => 0, fun _ => 0, fun _ => 0⟩

/-- A 4000/3 × 1000 resolution over the viewport [−2,2] × [−2,2], giving the
exact pixel size 1/200 (a 3-4-5 triangle). -/
noncomputable def uvChain : SView := ⟨4000 / 3, 1000, -2, 2, -2, 2⟩

lemma isRootNode_sgChain (n : ℕ) : isRootNode sgChain n = (n = 0 : Bool) := by
  unfold isRootNode sgChain
  rcases Nat.eq_zero_or_pos n with h | h
  · subst h
    simp
  · have hn : ¬ (n = 0) := by omega
    simp [hn]

lemma pixelSizeOf_uvChain : pixelSizeOf uvChain = 1 / 200 := by
  unfold pixelSizeOf glLength uvChain
  have h : ((2 - (-2)) / (4000 / 3) : ℝ) ^ 2 + ((2 - (-2)) / 1000 : ℝ) ^ 2
      = (1 / 200) ^ 2 := by norm_num
  simp only []
  rw [h]
  exact Real.sqrt_sq (by norm_num)

lemma sgChain_baseParent (n : ℕ) :
    sgChain.baseParent n = if n = 0 then -1 else 0 := rfl

lemma sgChain_transformParent (n : ℕ) :
    sgChain.transformParent n = if n = 0 then -1 else (n : ℤ) - 1 := rfl

lemma sgChain_radialCounts (n : ℕ) : sgChain.radialCounts n = 0 := rfl

lemma evaluateRootCircle_chain : evaluateRootCircle uvChain 0 = (0, 1) := by
  unfold evaluateRootCircle circleSDF glSmoothstep glClamp
  rw [pixelSizeOf_uvChain]
  have hlen : glLength (0 : V2) = 0 := by
    unfold glLength
    norm_num
  rw [hlen]
  norm_num [min_def, max_def]

lemma inverse_chain (pos : V2) (nid i : ℕ) :
    inverseTransformForCopy sgChain pos nid i = pos := by
  unfold inverseTransformForCopy sgChain rotateDeg radiansOf
  norm_num

end RGA

namespace RGA

lemma miniEval_one (c : ℕ → V2) (r : ℕ → Bool) :
    miniEval sgChain uvChain c r 1 0 = some (1, 1) := by
  unfold miniEval
  norm_num [sgChain_baseParent, sgChain_transformParent, sgChain_radialCounts, isRootNode_sgChain, inverse_chain,
    evaluateRootCircle_chain, invertColor, compositeS]

lemma miniEval_two (c : ℕ → V2) (r : ℕ → Bool) :
    miniEval sgChain uvChain c r 2 0 = none := by
  unfold miniEval
  norm_num [sgChain_baseParent, sgChain_transformParent, sgChain_radialCounts, isRootNode_sgChain, inverse_chain,
    evaluateRootCircle_chain, invertColor, compositeS]

lemma limitedTry_zero (c : ℕ → V2) (r : ℕ → Bool) :
    limitedTryNode sgChain uvChain 0 8 c r 0 = some (0, 1) := by
  unfold limitedTryNode
  norm_num [isRootNode_sgChain, evaluateRootCircle_chain]

lemma limitedTry_one (c : ℕ → V2) (r : ℕ → Bool) :
    limitedTryNode sgChain uvChain 0 8 c r 1 = some (1, 1) := by
  unfold limitedTryNode
  norm_num [sgChain_baseParent, sgChain_transformParent, sgChain_radialCounts, isRootNode_sgChain, inverse_chain,
    evaluateRootCircle_chain, invertColor, compositeS]

lemma limitedTry_two (c : ℕ → V2) (r : ℕ → Bool) (hr1 : r 1 = true) :
    limitedTryNode sgChain uvChain 0 8 c r 2 = some (0, 1) := by
  unfold limitedTryNode
  norm_num [sgChain_baseParent, sgChain_transformParent, sgChain_radialCounts, isRootNode_sgChain, inverse_chain,
    evaluateRootCircle_chain, invertColor, compositeS, hr1, miniEval_one]

lemma limitedTry_three (c : ℕ → V2) (r : ℕ → Bool) :
    limitedTryNode sgChain uvChain 0 8 c r 3 = none := by
  unfold limitedTryNode
  norm_num [sgChain_baseParent, sgChain_transformParent, sgChain_radialCounts, isRootNode_sgChain, inverse_chain,
    evaluateRootCircle_chain, invertColor, compositeS, miniEval_two]
  simp [show Int.toNat 2 = 2 from rfl, miniEval_two]

lemma limitedTry_four (c : ℕ → V2) (r : ℕ → Bool) (hr3 : r 3 = false) :
    limitedTryNode sgChain uvChain 0 8 c r 4 = none := by
  unfold limitedTryNode
  norm_num [sgChain_baseParent, sgChain_transformParent, sgChain_radialCounts, isRootNode_sgChain, inverse_chain,
    evaluateRootCircle_chain, invertColor, compositeS, hr3]
  simp [show Int.toNat 3 = 3 from rfl, hr3]

end RGA

namespace RGA

lemma sgChain_nodeCount : sgChain.nodeCount = 5 := rfl

lemma limitedLoop_succ (sg : SGraph) (u : SView) (pos : V2) (maxDepth : ℤ)
    (nodeId fuel p : ℕ) (st : EvalState) :
    limitedLoop sg u pos maxDepth nodeId (fuel + 1) p st =
      (if (p : ℤ) ≥ maxDepth then
        if st.ready nodeId then st.cache nodeId else (-1, -1)
      else
        let st' := passScan (limitedTryNode sg u pos maxDepth) sg.nodeCount
          { st with progress := false }
        if st'.progress = false then
          if st'.ready nodeId then st'.cache nodeId else (-1, -1)
        else if st'.ready nodeId then st'.cache nodeId
        else limitedLoop sg u pos maxDepth nodeId fuel (p + 1) st') := rfl

lemma limited_one : evaluateNodeLimited sgChain uvChain 1 0 8 = (1, 1) := by
  unfold evaluateNodeLimited
  rw [show (8 : ℕ) = 7 + 1 from rfl, limitedLoop_succ]
  norm_num [passScan, sgChain_nodeCount, show List.range 5 = [0, 1, 2, 3, 4] from rfl,
    limitedTry_zero, limitedTry_one, limitedTry_two, limitedTry_three,
    limitedTry_four]

lemma limited_two : evaluateNodeLimited sgChain uvChain 2 0 8 = (0, 1) := by
  unfold evaluateNodeLimited
  rw [show (8 : ℕ) = 7 + 1 from rfl, limitedLoop_succ]
  norm_num [passScan, sgChain_nodeCount, show List.range 5 = [0, 1, 2, 3, 4] from rfl,
    limitedTry_zero, limitedTry_one, limitedTry_two, limitedTry_three,
    limitedTry_four]

lemma limited_three : evaluateNodeLimited sgChain uvChain 3 0 8 = (-1, -1) := by
  unfold evaluateNodeLimited
  rw [show (8 : ℕ) = 7 + 1 from rfl, limitedLoop_succ]
  norm_num [passScan, sgChain_nodeCount, show List.range 5 = [0, 1, 2, 3, 4] from rfl,
    limitedTry_zero, limitedTry_one, limitedTry_two, limitedTry_three,
    limitedTry_four, limitedLoop_succ]

end RGA

namespace RGA

lemma outerTry_zero (c : ℕ → V2) (r : ℕ → Bool) :
    tryEvaluateNode sgChain uvChain 0 0 c r = some (0, 1) := by
  unfold tryEvaluateNode
  norm_num [isRootNode_sgChain, evaluateRootCircle_chain]

lemma outerTry_one (c : ℕ → V2) (r : ℕ → Bool) :
    tryEvaluateNode sgChain uvChain 1 0 c r = some (1, 1) := by
  unfold tryEvaluateNode
  norm_num [sgChain_baseParent, sgChain_transformParent, sgChain_radialCounts,
    isRootNode_sgChain, inverse_chain, evaluateRootCircle_chain, invertColor,
    compositeS]

lemma outerTry_two (c : ℕ → V2) (r : ℕ → Bool) :
    tryEvaluateNode sgChain uvChain 2 0 c r = some (0, 1) := by
  unfold tryEvaluateNode
  norm_num [sgChain_baseParent, sgChain_transformParent, sgChain_radialCounts,
    isRootNode_sgChain, inverse_chain, evaluateRootCircle_chain, invertColor,
    compositeS, show Int.toNat 1 = 1 from rfl, limited_one]

lemma outerTry_three (c : ℕ → V2) (r : ℕ → Bool) :
    tryEvaluateNode sgChain uvChain 3 0 c r = some (1, 1) := by
  unfold tryEvaluateNode
  norm_num [sgChain_baseParent, sgChain_transformParent, sgChain_radialCounts,
    isRootNode_sgChain, inverse_chain, evaluateRootCircle_chain, invertColor,
    compositeS, show Int.toNat 2 = 2 from rfl, limited_two]

lemma outerTry_four (c : ℕ → V2) (r : ℕ → Bool) :
    tryEvaluateNode sgChain uvChain 4 0 c r = none := by
  unfold tryEvaluateNode
  norm_num [sgChain_baseParent, sgChain_transformParent, sgChain_radialCounts,
    isRootNode_sgChain, inverse_chain, evaluateRootCircle_chain, invertColor,
    compositeS, show Int.toNat 3 = 3 from rfl, limited_three]

lemma outerLoop_succ (sg : SGraph) (u : SView) (pos : V2) (nodeId fuel : ℕ)
    (st : EvalState) :
    outerLoop sg u pos nodeId (fuel + 1) st =
      (let st' := passScan (fun c r nid =>
          match tryEvaluateNode sg u nid pos c r with
          | some v => if 0 ≤ v.2 then some v else none
          | none => none) sg.nodeCount { st with progress := false }
      if st'.progress = false then
        if st'.ready nodeId then some (st'.cache nodeId) else none
      else if st'.ready nodeId then some (st'.cache nodeId)
      else outerLoop sg u pos nodeId fuel st') := rfl

lemma core_three : evaluateNodeCore sgChain uvChain 3 0 = some (1, 1) := by
  unfold evaluateNodeCore
  rw [show (32 : ℕ) = 31 + 1 from rfl, outerLoop_succ]
  norm_num [passScan, sgChain_nodeCount, show List.range 5 = [0, 1, 2, 3, 4] from rfl,
    outerTry_zero, outerTry_one, outerTry_two, outerTry_three, outerTry_four]

lemma core_four : evaluateNodeCore sgChain uvChain 4 0 = none := by
  unfold evaluateNodeCore
  rw [show (32 : ℕ) = 31 + 1 from rfl, outerLoop_succ]
  norm_num [passScan, sgChain_nodeCount, show List.range 5 = [0, 1, 2, 3, 4] from rfl,
    outerTry_zero, outerTry_one, outerTry_two, outerTry_three, outerTry_four,
    outerLoop_succ]

end RGA

namespace RGA

/-- Counterexample to C5's error-surfacing part: on the five-node identity
chain, the pointwise evaluator exhausts its pass budget for node 4 (its
transform-parent chain is one level deeper than the hand-rolled limited
evaluation can resolve), and `evaluateNode` then silently returns the
transparent pixel `vec2(0,0)` — no explicit "evaluation exhausted"
condition reaches the caller. -/
theorem c5_exhausted_returns_transparent :
    evaluateNodeCore sgChain uvChain 4 0 = none ∧
    evaluateNode sgChain uvChain 4 0 = (0, 0) := by
  refine ⟨core_four, ?_⟩
  unfold evaluateNode
  rw [core_four]

/-- C5 (amended): the pointwise evaluator's pass loops are bounded by fixed
caps (32 outer passes, 8 limited passes), so evaluation always terminates
with either a computed sample or — when the budget is exceeded — the
*silent* transparent fallback `vec2(0,0)`; inside the budget the evaluator
does produce the sample, as node 3 of the identity chain shows, while node 4
exhausts the budget (internally signalled by a negative-alpha sentinel, but
masked to transparent at the top level). -/
theorem c5_bounded_passes_transparent_fallback :
    (∀ (sg : SGraph) (u : SView) (nid : ℕ) (pos : V2),
      (∃ v, evaluateNodeCore sg u nid pos = some v ∧
        evaluateNode sg u nid pos = v) ∨
      (evaluateNodeCore sg u nid pos = none ∧
        evaluateNode sg u nid pos = (0, 0))) ∧
    evaluateNode sgChain uvChain 3 0 = (1, 1) := by
  constructor
  · intro sg u nid pos
    cases h : evaluateNodeCore sg u nid pos with
    | none =>
      right
      refine ⟨rfl, ?_⟩
      unfold evaluateNode
      rw [h]
    | some v =>
      left
      refine ⟨v, rfl, ?_⟩
      unfold evaluateNode
      rw [h]
  · unfold evaluateNode
    rw [core_three]

end RGA
